import Mathlib

/-!
# Verification of the `openapi-to-har` transformation module

This file gives a shallow embedding of `src/openapi-to-har.js` (the single
source file of the repository) and proves/refutes the frozen claims about it.

Modelling conventions:
* JavaScript values appearing in the OpenAPI document are modelled by the
  inductive type `Json`.  A JavaScript `undefined` is modelled by `Option.none`
  (absence); `null` is the explicit `Json.null` value.
* JavaScript runtime exceptions (`TypeError` on reading a property of
  `undefined`/`null`, calling a string method on a non-string, ...) are
  modelled by `Except Unit`; `Except.error ()` is an uncaught exception.
* The in-place mutation that the source performs on the input document
  (`param.schema = resolveRef(...)`, `param.schema.type = 'object'`,
  `requestBody = resolveRef(...)`) is modelled by threading the document
  through the computation and writing at the *location* (path of keys) that
  the mutated local variable denotes.  A local variable that was obtained by
  dereferencing a `$ref` denotes the referenced location inside the document,
  so writes through it are visible to later readers, as in JavaScript.
  The one intentional deviation: a field assignment in JavaScript makes the
  field an alias of the assigned object, so the subsequent
  `param.schema.type = 'object'` also mutates the `$ref` target; here the
  write lands at the parameter's own location.  The only write ever performed
  through that alias is the `type` defaulting, which is re-applied on every
  resolution, so observable results agree.
* Property reads on number/boolean/string primitives are modelled as
  `undefined` (the string `length`/index properties are never exercised by
  the code under verification).
* `String.prototype.replace` `$`-substitution patterns in the replacement
  string are not modelled; replacements are literal.
-/

/-- JSON-like JavaScript values (documents, parameters, samples). -/
inductive Json where
  | null : Json
  | bool : Bool → Json
  | num : Int → Json
  | str : String → Json
  | arr : List Json → Json
  | obj : List (String × Json) → Json
deriving Repr, Inhabited

namespace Json

/-- JavaScript truthiness of a value. -/
def truthy : Json → Bool
  | .null => false
  | .bool b => b
  | .num n => n ≠ 0
  | .str s => s ≠ ""
  | .arr _ => true
  | .obj _ => true

/-- Truthiness of a possibly-`undefined` value (`undefined` is falsy). -/
def truthyO : Option Json → Bool
  | none => false
  | some j => truthy j

mutual
/-- Recursive core of `String(v)` (only needed for array values). -/
def jsToStringCore : Json → String
  | .null => "null"
  | .bool b => if b then "true" else "false"
  | .num n => toString n
  | .str s => s
  | .arr xs => jsArrToString xs
  | .obj _ => "[object Object]"

/-- `Array.prototype.toString`: elements joined by `,`; `null` elements
become the empty string. -/
def jsArrToString : List Json → String
  | [] => ""
  | [x] => jsElemToString x
  | x :: xs => jsElemToString x ++ "," ++ jsArrToString xs

/-- One array element inside a join (`null` prints as empty). -/
def jsElemToString : Json → String
  | .null => ""
  | j => jsToStringCore j
end

/-- JavaScript `String(v)` coercion (as used by `+ ''` and string `+`).
(Non-recursive wrapper so that the common cases reduce definitionally.) -/
def jsToString : Json → String
  | .null => "null"
  | .bool b => if b then "true" else "false"
  | .num n => toString n
  | .str s => s
  | .arr xs => jsArrToString xs
  | .obj _ => "[object Object]"

/-- `String(v)` where `v` may be `undefined`. -/
def jsToStringO : Option Json → String
  | none => "undefined"
  | some j => jsToString j

/-- Escape a string for JSON output (quotes and backslashes; control
characters other than these do not occur in the developments below). -/
def jsonEscape (s : String) : String :=
  s.data.foldl (fun acc c =>
    if c = '"' then acc ++ "\\\""
    else if c = '\\' then acc ++ "\\\\"
    else acc.push c) ""

mutual
/-- Recursive core of `JSON.stringify` (compact form). -/
def stringifyCore : Json → String
  | .null => "null"
  | .bool b => if b then "true" else "false"
  | .num n => toString n
  | .str s => "\"" ++ jsonEscape s ++ "\""
  | .arr xs => "[" ++ stringifyArr xs ++ "]"
  | .obj kvs => "\x7b" ++ stringifyObj kvs ++ "\x7d"

def stringifyArr : List Json → String
  | [] => ""
  | [x] => stringifyCore x
  | x :: xs => stringifyCore x ++ "," ++ stringifyArr xs

def stringifyObj : List (String × Json) → String
  | [] => ""
  | [(k, v)] => "\"" ++ jsonEscape k ++ "\":" ++ stringifyCore v
  | (k, v) :: kvs => "\"" ++ jsonEscape k ++ "\":" ++ stringifyCore v ++ "," ++ stringifyObj kvs
end

/-- `JSON.stringify` (compact form); non-recursive wrapper. -/
def stringify : Json → String
  | .null => "null"
  | .bool b => if b then "true" else "false"
  | .num n => toString n
  | .str s => "\"" ++ jsonEscape s ++ "\""
  | .arr xs => "[" ++ stringifyArr xs ++ "]"
  | .obj kvs => "\x7b" ++ stringifyObj kvs ++ "\x7d"

end Json

/-! ### Structurally recursive string primitives

The corresponding core-library functions are compiled by well-founded
recursion and therefore do not reduce inside the kernel; the embedding uses
these structural equivalents so that concrete runs evaluate by `rfl` /
`decide`.  Case mapping is ASCII (the only case the documents exercise). -/

/-- `toLowerCase()` (ASCII). -/
def strLower (s : String) : String := String.mk (s.data.map Char.toLower)

/-- `toUpperCase()` (ASCII). -/
def strUpper (s : String) : String := String.mk (s.data.map Char.toUpper)

/-- `pre` is a leading substring of `s`. -/
def strLeads (pre s : String) : Bool := pre.data.isPrefixOf s.data

/-- Character-list worker for `jsSplit` (fuel = remaining length bound). -/
def jsSplitAux (sep : List Char) : Nat → List Char → List Char → List (List Char)
  | 0, rest, acc => [acc.reverse ++ rest]
  | _ + 1, [], acc => [acc.reverse]
  | fuel + 1, c :: rest, acc =>
    if sep.isPrefixOf (c :: rest) then
      acc.reverse :: jsSplitAux sep fuel ((c :: rest).drop sep.length) []
    else
      jsSplitAux sep fuel rest (c :: acc)

/-- JavaScript `s.split(sep)` for a non-empty separator. -/
def jsSplit (s sep : String) : List String :=
  (jsSplitAux sep.data (s.data.length + 1) s.data []).map String.mk

/-- Join with a separator (structural `intercalate`). -/
def strJoinSep (sep : String) : List String → String
  | [] => ""
  | [x] => x
  | x :: xs => x ++ sep ++ strJoinSep sep xs

/-- Numeric value of a digit string (`none` when a non-digit occurs). -/
def digitsVal : List Char → Nat → Option Nat
  | [], acc => some acc
  | c :: rest, acc =>
    if c.isDigit then digitsVal rest (acc * 10 + (c.toNat - 48)) else none

/-- A key step when walking into a document: an object field or an array
index. -/
inductive JKey where
  | fld : String → JKey
  | idx : Nat → JKey
deriving Repr, DecidableEq

/-- Does the string denote a canonical array index (as JavaScript array
indexing by string does)? -/
def parseIndex (s : String) : Option Nat :=
  match s.data with
  | [] => none
  | cs =>
    match digitsVal cs 0 with
    | some n => if toString n = s then some n else none
    | none => none

namespace Json

/-- Property read `j[key]` for a string key; `none` models `undefined`.
Reads on primitives yield `undefined` (see header notes). -/
def get : Json → String → Option Json
  | .obj kvs, k => kvs.lookup k
  | .arr xs, k =>
    match parseIndex k with
    | some n => xs.get? n
    | none => none
  | _, _ => none

/-- Property read by a `JKey`. -/
def getK : Json → JKey → Option Json
  | j, .fld s => j.get s
  | .arr xs, .idx n => xs.get? n
  | .obj kvs, .idx n => kvs.lookup (toString n)
  | _, .idx _ => none

/-- Replace the binding of `k` in an association list (first occurrence), or
append it, matching JavaScript property assignment order. -/
def setField : List (String × Json) → String → Json → List (String × Json)
  | [], k, v => [(k, v)]
  | (k', v') :: kvs, k, v =>
    if k' = k then (k', v) :: kvs else (k', v') :: setField kvs k v

/-- Property write `j[key] = v`.  Writes to primitives are silently dropped
(sloppy-mode JavaScript); such writes are never reached on non-throwing
runs of the embedded code. -/
def setK : Json → JKey → Json → Json
  | .obj kvs, .fld s, v => .obj (setField kvs s v)
  | .arr xs, .idx n, v => .arr (xs.set n v)
  | .arr xs, .fld s, v =>
    match parseIndex s with
    | some n => .arr (xs.set n v)
    | none => .arr xs
  | .obj kvs, .idx n, v => .obj (setField kvs (toString n) v)
  | j, _, _ => j

/-- Read at a path of keys (no exception modelling: `none` = absent). -/
def getPath : Json → List JKey → Option Json
  | j, [] => some j
  | j, k :: ks =>
    match j.getK k with
    | some c => c.getPath ks
    | none => none

/-- Write at a path of keys: the final assignment creates the field when it
is absent (JavaScript property assignment).  Writing below a missing
intermediate field is never reached on non-throwing runs (the location was
obtained by a successful read). -/
def setPath : Json → List JKey → Json → Json
  | _, [], v => v
  | j, [k], v => j.setK k v
  | j, k :: ks, v =>
    match j.getK k with
    | some c => j.setK k (c.setPath ks v)
    | none => j

/-- The keys a `for (x in v)` loop enumerates: object field names, array
indices; primitives and `null` enumerate nothing (string index keys are not
modelled, see header). -/
def forInKeys : Json → List JKey
  | .obj kvs => kvs.map (fun kv => JKey.fld kv.1)
  | .arr xs => (List.range xs.length).map JKey.idx
  | _ => []

/-- `Object.keys` of a value as used by the source (first key extraction);
throws on `null`/`undefined` at call sites, handled there. -/
def objKeys : Json → List String
  | .obj kvs => kvs.map Prod.fst
  | .arr xs => (List.range xs.length).map toString
  | _ => []

end Json

/-- Property read on a possibly-`undefined`/`null` base: JavaScript throws
`TypeError` when the base is `undefined` or `null`. -/
def jsGet : Option Json → String → Except Unit (Option Json)
  | none, _ => .error ()
  | some .null, _ => .error ()
  | some j, k => .ok (j.get k)

/-- Expect a string value (a string method such as `toLowerCase` was called
on it; anything else throws). -/
def expectStr : Option Json → Except Unit String
  | some (.str s) => .ok s
  | _ => .error ()

/-- Replace the first occurrence of `pat` in `s` by `rep` (JavaScript
`String.prototype.replace` with string arguments, literal replacement). -/
def replaceFirst (s pat rep : String) : String :=
  if pat = "" then rep ++ s
  else
    match jsSplit s pat with
    | [] => s
    | [_] => s
    | a :: rest => a ++ rep ++ strJoinSep pat rest

/-! ## Reference Resolver (source: `resolveRef`, lines 634-648) -/

/-- The recursive path walk of `resolveRef`: each segment is read off the
current value; reading a property of `undefined`/`null` throws. -/
def refWalk : Option Json → List String → Except Unit (Option Json)
  | cur, [] => .ok cur
  | cur, [k] => jsGet cur k
  | cur, k :: ks => do refWalk (← jsGet cur k) ks

/-- `resolveRef(openApi, ref)`: splits on `/`; with at most one segment it
returns a fresh empty object, otherwise it walks the segments after the
first from the document root. -/
def resolveRef (doc : Json) (ref : String) : Except Unit (Option Json) :=
  let parts := jsSplit ref "/"
  if parts.length ≤ 1 then .ok (some (Json.obj []))
  else refWalk (some doc) (parts.drop 1)

/-! ## Parameter sites

A loop-local `param` variable denotes either a location inside the document
(its own array slot, or the `$ref` target it was resolved to) or a detached
value (the fresh empty object `resolveRef` produces for a segment-less
reference).  Writes through a detached site never occur: the detached value
is always the empty object, on which the code only reads absent fields. -/

/-- Where a loop-local `param` variable lives. -/
inductive Site where
  | at_ : List JKey → Site
  | det : Json → Site
deriving Repr

/-- Current value of a site (re-read from the current document). -/
def siteVal (doc : Json) : Site → Option Json
  | .at_ l => doc.getPath l
  | .det j => some j

/-- Write `v` at field path `ks` below the site. -/
def siteWrite (doc : Json) (site : Site) (ks : List JKey) (v : Json) : Json :=
  match site with
  | .at_ l => doc.setPath (l ++ ks) v
  | .det _ => doc

/-- The key path of a reference string `#/a/b` (segments after the first). -/
def refSegs (ref : String) : List JKey :=
  ((jsSplit ref "/").drop 1).map JKey.fld

/-- Effect of the per-parameter prelude
`if (typeof param['$ref'] === 'string' && /^#/.test(param['$ref']))
   param = resolveRef(openApi, param['$ref'])`
(source lines 79-83 and analogues): returns the site the local `param`
denotes afterwards. -/
def paramSite (doc : Json) (base : List JKey) : Except Unit Site := do
  let p := doc.getPath base
  match ← jsGet p "$ref" with
  | some (.str r) =>
    if strLeads "#" r then do
      let v ← resolveRef doc r
      if ((jsSplit r "/").length ≤ 1) then
        pure (Site.det (v.getD (Json.obj [])))
      else
        pure (Site.at_ (refSegs r))
    else pure (Site.at_ base)
  | _ => pure (Site.at_ base)

/-- Effect of the schema-resolution prelude (source lines 84-92 and
analogues):
`if (typeof param.schema !== 'undefined') {
   if (typeof param.schema['$ref'] === 'string' && /^#/...) {
     param.schema = resolveRef(openApi, param.schema['$ref'])
     if (typeof param.schema.type === 'undefined') param.schema.type = 'object'
   } }`
Returns the updated document. -/
def resolveSchemaAt (doc : Json) (site : Site) : Except Unit Json := do
  let p := siteVal doc site
  match ← jsGet p "schema" with
  | none => pure doc
  | some sch =>
    match ← jsGet (some sch) "$ref" with
    | some (.str r) =>
      if strLeads "#" r then do
        match ← resolveRef doc r with
        | none => .error ()  -- schema becomes undefined; reading `.type` of it throws
        | some j =>
          let doc1 := siteWrite doc site [JKey.fld "schema"] j
          if (j.get "type").isNone then
            pure (siteWrite doc1 site [JKey.fld "schema", JKey.fld "type"] (Json.str "object"))
          else
            pure doc1
      else pure doc
    | _ => pure doc

/-! ## Per-parameter reads shared by the builders -/

/-- `typeof param.in !== 'undefined'` followed by `param.in.toLowerCase()`:
`none` when `in` is absent, the lowercased string otherwise (throws when
`in` is not a string). -/
def jsInLower (p : Option Json) : Except Unit (Option String) := do
  match ← jsGet p "in" with
  | none => pure none
  | some v => pure (some (strLower (← expectStr (some v))))

/-- `'SOME_' + (param.type || param.schema.type).toUpperCase() + '_VALUE'`:
the synthesized placeholder; throws when neither a truthy `type` nor a
`schema` with a string `type` is available. -/
def placeholderOf (p : Option Json) : Except Unit String := do
  let t ← jsGet p "type"
  let tv ← (if Json.truthyO t then pure t else do jsGet (← jsGet p "schema") "type")
  let ty ← expectStr tv
  pure ("SOME_" ++ strUpper ty ++ "_VALUE")

/-- `param.name.toLowerCase()`-compatible read of the name (string or
throw). -/
def paramNameStr (p : Option Json) : Except Unit String := do
  expectStr (← jsGet p "name")

/-- Value of an `in: query` parameter (source lines 284-291 and 320-327):
the placeholder is computed first (and can throw), then the caller
override, the `default`, and `schema.example` are consulted in that
order. -/
def queryValue (values : List (String × Json)) (p : Option Json) : Except Unit String := do
  let ph ← placeholderOf p
  let nameKey := Json.jsToStringO (← jsGet p "name")
  match values.lookup nameKey with
  | some ov => pure (Json.jsToString ov)
  | none =>
    match ← jsGet p "default" with
    | some dv => pure (Json.jsToString dv)
    | none =>
      match ← jsGet p "schema" with
      | none => pure ph
      | some sch =>
        match ← jsGet (some sch) "example" with
        | some ex => pure (Json.jsToString ex)
        | none => pure ph

/-- Generic driver for the `for (let i in xs)` loops. -/
def foldSteps {σ : Type} (step : σ → JKey → Except Unit σ) : σ → List JKey → Except Unit σ
  | st, [] => .ok st
  | st, k :: ks => do foldSteps step (← step st k) ks

/-! ## Base URL Builder (source: `getBaseUrl`, lines 228-245) -/

/-- `getBaseUrl`: first server URL verbatim (possibly not a string) when
`servers` is present, else `scheme://host[basePath]`. -/
def getBaseUrl (doc : Json) : Except Unit (Option Json) := do
  let serversO ← jsGet (some doc) "servers"
  if Json.truthyO serversO then do
    jsGet (← jsGet serversO "0") "url"
  else do
    let schemesO ← jsGet (some doc) "schemes"
    let lead ← (match schemesO with
      | none => pure "http"
      | some sv => do
        let s0 ← jsGet (some sv) "0"
        pure (Json.jsToStringO s0))
    let hostO ← jsGet (some doc) "host"
    let basePathO ← jsGet (some doc) "basePath"
    let isRootBase := (match basePathO with
      | some (.str s) => s = "/"
      | _ => false) || ! Json.truthyO basePathO
    if isRootBase then
      pure (some (Json.str (lead ++ "://" ++ Json.jsToStringO hostO)))
    else
      pure (some (Json.str (lead ++ "://" ++ Json.jsToStringO hostO ++ Json.jsToStringO basePathO)))

/-! ## Path Renderer (source: `getFullPath`, lines 355-374) -/

/-- One iteration of the `getFullPath` loop: dereference a parameter-level
`$ref`, and for an `in: path` parameter with a defined `example`, replace
the first occurrence of `{name}` by the stringified example. -/
def fpStep (doc pv : Json) (fp : String) (k : JKey) : Except Unit String := do
  let p0 := pv.getK k
  let p ← (match ← jsGet p0 "$ref" with
    | some (.str r) => if strLeads "#" r then resolveRef doc r else pure p0
    | _ => pure p0)
  match ← jsInLower p with
  | some "path" =>
    match ← jsGet p "example" with
    | some ex => do
      let nm := Json.jsToStringO (← jsGet p "name")
      pure (replaceFirst fp ("\x7b" ++ nm ++ "\x7d") (Json.jsToString ex))
    | none => pure fp
  | _ => pure fp

/-- `getFullPath`: uses the path-level parameter list when it is truthy
(`||`), otherwise the operation-level list, and substitutes `example`
values of `in: path` parameters into the template. -/
def getFullPath (doc : Json) (path method : String) : Except Unit String := do
  let pathsV ← jsGet (some doc) "paths"
  let pathItem ← jsGet pathsV path
  let pparams ← jsGet pathItem "parameters"
  let params ← (if Json.truthyO pparams then pure pparams
    else do jsGet (← jsGet pathItem method) "parameters")
  match params with
  | none => pure path
  | some pv => foldSteps (fpStep doc pv) path pv.forInKeys

/-! ## Query String Builder (source: `getQueryStrings`, lines 257-345) -/

/-- One query-string entry `{name, value}`. -/
structure QSE where
  name : String
  value : String
deriving Repr, DecidableEq

/-- One iteration of the path-level query loop (source lines 268-299):
dereference, resolve the schema in place, and for `in: query` parameters
push the entry and record the lowercased name. -/
def qsStepPath (values : List (String × Json)) (paramsLoc : List JKey)
    (st : Json × List QSE × List String) (k : JKey) :
    Except Unit (Json × List QSE × List String) := do
  let (doc0, qs, defined) := st
  let site ← paramSite doc0 (paramsLoc ++ [k])
  let doc ← resolveSchemaAt doc0 site
  let p := siteVal doc site
  match ← jsInLower p with
  | some "query" => do
    let value ← queryValue values p
    let name ← paramNameStr p
    pure (doc, qs ++ [⟨name, value⟩], defined ++ [strLower name])
  | _ => pure (doc, qs, defined)

/-- One iteration of the method-level query loop (source lines 304-341):
same as the path-level step, except that an already-defined name
(case-insensitively) is removed from the accumulated list before the
method-level entry is appended. -/
def qsStepOp (values : List (String × Json)) (paramsLoc : List JKey)
    (st : Json × List QSE × List String) (k : JKey) :
    Except Unit (Json × List QSE × List String) := do
  let (doc0, qs, defined) := st
  let site ← paramSite doc0 (paramsLoc ++ [k])
  let doc ← resolveSchemaAt doc0 site
  let p := siteVal doc site
  match ← jsInLower p with
  | some "query" => do
    let value ← queryValue values p
    let name ← paramNameStr p
    if defined.contains (strLower name) then
      pure (doc, (qs.filter (fun q => ¬ (strLower q.name = strLower name))) ++ [⟨name, value⟩], defined)
    else
      pure (doc, qs ++ [⟨name, value⟩], defined ++ [strLower name])
  | _ => pure (doc, qs, defined)

/-- `getQueryStrings`. -/
def getQueryStrings (doc : Json) (path method : String) (values : List (String × Json)) :
    Except Unit (List QSE × Json) := do
  let pathsV ← jsGet (some doc) "paths"
  let pathItem ← jsGet pathsV path
  let st1 ← (match ← jsGet pathItem "parameters" with
    | none => pure (doc, ([] : List QSE), ([] : List String))
    | some pv =>
        foldSteps (qsStepPath values [JKey.fld "paths", JKey.fld path, JKey.fld "parameters"])
          (doc, [], []) pv.forInKeys)
  let (doc1, qs1, def1) := st1
  let pathsV1 ← jsGet (some doc1) "paths"
  let pathItem1 ← jsGet pathsV1 path
  let opV ← jsGet pathItem1 method
  let st2 ← (match ← jsGet opV "parameters" with
    | none => pure (doc1, qs1, def1)
    | some pv =>
        foldSteps (qsStepOp values [JKey.fld "paths", JKey.fld path, JKey.fld method, JKey.fld "parameters"])
          (doc1, qs1, def1) pv.forInKeys)
  pure (st2.2.1, st2.1)

/-! ## Header Builder (source: `getHeadersArray`, lines 385-593) -/

/-- One header entry `{name, value}` (values can be arbitrary document
values, e.g. entries of a `consumes` array). -/
structure Header where
  name : String
  value : Json
deriving Repr

/-- The headers contributed by a `consumes`/`produces`-style array value:
one entry per enumerated element, with the given header name. -/
def mimeHeaders (name : String) (v : Json) : List Header :=
  v.forInKeys.map (fun k => ⟨name, (v.getK k).getD Json.null⟩)

/-- One iteration of the path-level header-parameter loop (source lines
447-463). -/
def hdrStepPath (paramsLoc : List JKey)
    (st : List Header × List String) (k : JKey) (doc : Json) :
    Except Unit (List Header × List String) := do
  let (headers, defined) := st
  let site ← paramSite doc (paramsLoc ++ [k])
  let p := siteVal doc site
  match ← jsInLower p with
  | some "header" => do
    let value ← placeholderOf p
    let name ← paramNameStr p
    pure (headers ++ [⟨name, Json.str value⟩], defined ++ [strLower name])
  | _ => pure (headers, defined)

/-- One iteration of the method-level header-parameter loop (source lines
468-489): an already-defined name (case-insensitive) is removed from the
whole accumulated header list before the method-level entry is appended. -/
def hdrStepOp (paramsLoc : List JKey)
    (st : List Header × List String) (k : JKey) (doc : Json) :
    Except Unit (List Header × List String) := do
  let (headers, defined) := st
  let site ← paramSite doc (paramsLoc ++ [k])
  let p := siteVal doc site
  match ← jsInLower p with
  | some "header" => do
    let value ← placeholderOf p
    let name ← paramNameStr p
    if defined.contains (strLower name) then
      pure ((headers.filter (fun h => ¬ (strLower h.name = strLower name))) ++ [⟨name, Json.str value⟩], defined)
    else
      pure (headers ++ [⟨name, Json.str value⟩], defined ++ [strLower name])
  | _ => pure (headers, defined)

/-- The three authentication candidates collected by the security loop. -/
structure AuthSt where
  basicAuthDef : Option String
  apiKeyAuthDef : Option Json
  oauthDef : Option String
deriving Repr

/-- `Object.keys(x)[0]` used as a property key: throws on `null`, and an
absent first key is coerced to the string `"undefined"`. -/
def objKeysFirst : Json → Except Unit String
  | .null => .error ()
  | j => .ok ((j.objKeys).headD "undefined")

/-- Look up the named security scheme:
`openApi.securityDefinitions ? openApi.securityDefinitions[secScheme]
: openApi.components.securitySchemes[secScheme]`. -/
def secDefinitionOf (doc : Json) (secScheme : String) : Except Unit (Option Json) := do
  let defsO ← jsGet (some doc) "securityDefinitions"
  if Json.truthyO defsO then
    jsGet defsO secScheme
  else do
    let compO ← jsGet (some doc) "components"
    let schemesO ← jsGet compO "securitySchemes"
    jsGet schemesO secScheme

/-- Apply one classified requirement to the candidate state (the common
`switch (authType)` of both loops; `authScheme` is the lowercased `scheme`
when it was computed). -/
def applyAuthSwitch (st : AuthSt) (secScheme : String) (secDef : Json)
    (authType : String) (authScheme : Option String) : AuthSt :=
  if authType = "basic" then { st with basicAuthDef := some secScheme }
  else if authType = "apikey" then
    (if (match secDef.get "in" with
         | some (.str s) => s == "header"
         | _ => false) then { st with apiKeyAuthDef := some secDef } else st)
  else if authType = "oauth2" then { st with oauthDef := some secScheme }
  else if authType = "http" then
    (match authScheme with
     | some "bearer" => { st with oauthDef := some secScheme }
     | some "basic" => { st with basicAuthDef := some secScheme }
     | _ => st)
  else st

/-- One iteration of the operation-level security loop (source lines
497-533): the `scheme` field is only read when it is non-null. -/
def secStepOp (doc secv : Json) (st : AuthSt) (k : JKey) : Except Unit AuthSt := do
  let entry := (secv.getK k).getD Json.null
  let secScheme ← objKeysFirst entry
  let secDefO ← secDefinitionOf doc secScheme
  let authType := strLower (← expectStr (← jsGet secDefO "type"))
  let secDef := secDefO.getD Json.null
  let schemeRead := secDef.get "scheme"
  let schemeNonNull : Bool := match schemeRead with
    | some .null => false
    | some _ => true
    | none => false
  let authScheme ← (if authType ≠ "apikey" ∧ schemeNonNull then do
        pure (some (strLower (← expectStr schemeRead)))
      else pure none)
  pure (applyAuthSwitch st secScheme secDef authType authScheme)

/-- One iteration of the document-level security loop (source lines
536-572): the `scheme` field is read (and `toLowerCase` applied) whenever
the type is neither `apikey` nor `oauth2` — without a null guard. -/
def secStepDoc (doc secv : Json) (st : AuthSt) (k : JKey) : Except Unit AuthSt := do
  let entry := (secv.getK k).getD Json.null
  let secScheme ← objKeysFirst entry
  let secDefO ← secDefinitionOf doc secScheme
  let authType := strLower (← expectStr (← jsGet secDefO "type"))
  let secDef := secDefO.getD Json.null
  let authScheme ← (if authType ≠ "apikey" ∧ authType ≠ "oauth2" then do
        pure (some (strLower (← expectStr (secDef.get "scheme"))))
      else pure none)
  pure (applyAuthSwitch st secScheme secDef authType authScheme)

/-- JS truthiness of a stored scheme name: present and non-empty. -/
def strOTruthy : Option String → Bool
  | some n => !(n == "")
  | none => false

/-- The final `if / else if / else if` chain adding at most one
authentication header (source lines 575-590). -/
def authTail (st : AuthSt) (defined : List String) : Except Unit (List Header) := do
  if strOTruthy st.basicAuthDef ∧ ¬ defined.contains "authorization" then
    pure [⟨"Authorization", Json.str ("Basic " ++ "REPLACE_BASIC_AUTH")⟩]
  else
    match st.apiKeyAuthDef with
    | some d => do
      let nm ← expectStr (d.get "name")
      if ¬ defined.contains (strLower nm) then
        pure [⟨nm, Json.str "REPLACE_KEY_VALUE"⟩]
      else if strOTruthy st.oauthDef ∧ ¬ defined.contains "authorization" then
        pure [⟨"Authorization", Json.str ("Bearer " ++ "REPLACE_BEARER_TOKEN")⟩]
      else pure []
    | none =>
      if strOTruthy st.oauthDef ∧ ¬ defined.contains "authorization" then
        pure [⟨"Authorization", Json.str ("Bearer " ++ "REPLACE_BEARER_TOKEN")⟩]
      else pure []

/-- `getHeadersArray`. -/
def getHeadersArray (doc : Json) (path method : String) : Except Unit (List Header) := do
  let pathsV ← jsGet (some doc) "paths"
  let pathItem ← jsGet pathsV path
  let pathObjO ← jsGet pathItem method
  -- 'accept' from operation-level `consumes`, else document-level
  let acceptHs ← (match ← jsGet pathObjO "consumes" with
    | some cv => pure (mimeHeaders "accept" cv)
    | none =>
      do match ← jsGet (some doc) "consumes" with
         | some cv => pure (mimeHeaders "accept" cv)
         | none => pure [])
  -- 'content-type' from operation-level `produces`, else document-level
  let producesHs ← (match ← jsGet pathObjO "produces" with
    | some pv => pure (mimeHeaders "content-type" pv)
    | none =>
      do match ← jsGet (some doc) "produces" with
         | some pv => pure (mimeHeaders "content-type" pv)
         | none => pure [])
  -- v3 'content-type': one per requestBody.content key
  let rbO ← jsGet pathObjO "requestBody"
  let contentHs ← (if Json.truthyO rbO then do
      let contentO := (rbO.getD Json.null).get "content"
      if Json.truthyO contentO then
        pure (((contentO.getD Json.null).objKeys).map (fun t => (⟨"content-type", Json.str t⟩ : Header)))
      else pure []
    else pure [])
  let headers0 := acceptHs ++ producesHs ++ contentHs
  -- path-level header parameters
  let st1 ← (match ← jsGet pathItem "parameters" with
    | none => pure (headers0, ([] : List String))
    | some pv =>
        foldSteps (fun st k => hdrStepPath [JKey.fld "paths", JKey.fld path, JKey.fld "parameters"] st k doc)
          (headers0, []) pv.forInKeys)
  -- method-level header parameters
  let st2 ← (match ← jsGet pathObjO "parameters" with
    | none => pure st1
    | some pv =>
        foldSteps (fun st k => hdrStepOp [JKey.fld "paths", JKey.fld path, JKey.fld method, JKey.fld "parameters"] st k doc)
          st1 pv.forInKeys)
  let (headers, defined) := st2
  -- security: operation-level if present, else document-level
  let secO ← jsGet pathObjO "security"
  let authSt ← (match secO with
    | some secv => foldSteps (secStepOp doc secv) ⟨none, none, none⟩ secv.forInKeys
    | none =>
      do match ← jsGet (some doc) "security" with
         | some secv => foldSteps (secStepDoc doc secv) ⟨none, none, none⟩ secv.forInKeys
         | none => pure ⟨none, none, none⟩)
  let tail ← authTail authSt defined
  pure (headers ++ tail)

/-! ## Payload Builder (source: `getPayload`, lines 70-220) -/

/-- The external schema sampler (`OpenAPISampler.sample(schema, opts,
openApi)`): a deterministic function of the schema and document that can
raise. -/
def Sampler : Type := Json → Json → Except Unit Json

/-- Outcome of one payload-loop iteration: either the `return null` early
exit of the sampler `catch` (carrying the current document), or the updated
state. -/
inductive PayloadStep where
  | abort : Json → PayloadStep
  | go : Json × Option Json → PayloadStep

/-- `payload.params` push logic shared by the `formdata` branches (source
lines 115-123, 169-177, 200-208): create the multipart container when
there is no payload or no `params`, push when `params` is a non-empty
array, and drop the sample otherwise. -/
def pushFormParam (payload : Option Json) (sample : Json) : Option Json :=
  let paramsO := payload.bind (fun pl => pl.get "params")
  if ¬ Json.truthyO payload ∨ ¬ Json.truthyO paramsO then
    some (Json.obj [("mimeType", Json.str "multipart/form-data"), ("text", Json.str ""),
                    ("params", Json.arr [sample])])
  else
    match payload, paramsO with
    | some pl, some (.arr xs) =>
      if xs.length > 0 then some (pl.setK (JKey.fld "params") (Json.arr (xs ++ [sample])))
      else some pl
    | _, _ => payload

/-- One iteration of a parameter loop of `getPayload` (source lines 76-125
and the identical method-level block 130-179). -/
def payloadStep (sampler : Sampler) (paramsLoc : List JKey)
    (st : Json × Option Json) (k : JKey) : Except Unit PayloadStep := do
  let (doc0, payload0) := st
  let site ← paramSite doc0 (paramsLoc ++ [k])
  let doc ← resolveSchemaAt doc0 site
  let p := siteVal doc site
  let inL ← jsInLower p
  -- v2 `in: body` with a schema: sample inside try/catch, `return null` on error
  let bodyRes ← (if inL = some "body" then do
      match ← jsGet p "schema" with
      | some sch =>
        (match sampler sch doc with
         | .ok sample =>
           pure (some (some (Json.obj [("mimeType", Json.str "application/json"),
                                       ("text", Json.str (Json.stringify sample))])))
         | .error _ => pure none)
      | none => pure (some payload0)
    else pure (some payload0))
  match bodyRes with
  | none => pure (.abort doc)
  | some payload1 =>
    -- v2 `in: formdata`
    if inL = some "formdata" then do
      let ty ← expectStr (← jsGet p "type")
      let nmO ← jsGet p "name"
      let sample := Json.obj ((match nmO with
          | some v => [("name", v)]
          | none => []) ++ [("value", Json.str ("SOME_" ++ strUpper ty ++ "_VALUE"))])
      pure (.go (doc, pushFormParam payload1 sample))
    else pure (.go (doc, payload1))

/-- The parameter loop of `getPayload` with the early `return null`. -/
def payloadLoop (sampler : Sampler) (paramsLoc : List JKey) :
    Json × Option Json → List JKey → Except Unit PayloadStep
  | st, [] => pure (.go st)
  | st, k :: ks => do
    match ← payloadStep sampler paramsLoc st k with
    | .abort d => pure (.abort d)
    | .go st' => payloadLoop sampler paramsLoc st' ks

/-- The `for formData in sample` loop of the v3 multipart branch (source
lines 194-209): each sampled field's value is uppercased (throws when not a
string). -/
def formDataLoop (sample : Json) : Option Json → List JKey → Except Unit (Option Json)
  | pl, [] => pure pl
  | pl, k :: ks => do
    let keyStr := match k with | .fld s => s | .idx n => toString n
    let v ← expectStr (sample.getK k)
    let item := Json.obj [("name", Json.str keyStr),
                          ("value", Json.str ("SOME_" ++ strUpper v ++ "_VALUE"))]
    formDataLoop sample (pushFormParam pl item) ks

/-- One iteration of the v3 `requestBody.content` loop (source lines
188-217).  The sampler calls here are NOT wrapped in try/catch. -/
def contentStep (sampler : Sampler) (doc contentV : Json)
    (payload : Option Json) (k : JKey) : Except Unit (Option Json) := do
  let keyStr := match k with | .fld s => s | .idx n => toString n
  let rbV := (contentV.getK k).getD Json.null
  let schO ← jsGet (some rbV) "schema"
  if Json.truthyO schO ∧ keyStr = "multipart/form-data" then do
    let sample ← sampler (schO.getD Json.null) doc
    formDataLoop sample payload sample.forInKeys
  else if Json.truthyO schO ∧ (keyStr = "application/json" ∨ keyStr = "*/*") then do
    let sample ← sampler (schO.getD Json.null) doc
    pure (some (Json.obj [("mimeType", Json.str "application/json"),
                          ("text", Json.str (Json.stringify sample))]))
  else pure payload

/-- `getPayload`. -/
def getPayload (sampler : Sampler) (doc : Json) (path method : String) :
    Except Unit (Option Json × Json) := do
  let pathsV ← jsGet (some doc) "paths"
  let pathItem ← jsGet pathsV path
  let r1 ← (match ← jsGet pathItem "parameters" with
    | none => pure (PayloadStep.go (doc, none))
    | some pv =>
        payloadLoop sampler [JKey.fld "paths", JKey.fld path, JKey.fld "parameters"]
          (doc, none) pv.forInKeys)
  match r1 with
  | .abort d => pure (none, d)
  | .go (doc1, payload1) => do
    let pathsV1 ← jsGet (some doc1) "paths"
    let pathItem1 ← jsGet pathsV1 path
    let opV ← jsGet pathItem1 method
    let r2 ← (match ← jsGet opV "parameters" with
      | none => pure (PayloadStep.go (doc1, payload1))
      | some pv =>
          payloadLoop sampler [JKey.fld "paths", JKey.fld path, JKey.fld method, JKey.fld "parameters"]
            (doc1, payload1) pv.forInKeys)
    match r2 with
    | .abort d => pure (none, d)
    | .go (doc2, payload2) => do
      -- top-level requestBody `$ref` resolution (source lines 182-184);
      -- an `undefined` resolution result is stored as `null` (both are
      -- falsy for every later read the code performs)
      let opV2 ← jsGet (← jsGet (← jsGet (some doc2) "paths") path) method
      let rbO ← jsGet opV2 "requestBody"
      let doc3 ← (if Json.truthyO rbO then do
          let refV := (rbO.getD Json.null).get "$ref"
          if Json.truthyO refV then do
            let r ← expectStr refV
            let v ← resolveRef doc2 r
            pure (doc2.setPath [JKey.fld "paths", JKey.fld path, JKey.fld method, JKey.fld "requestBody"]
                    (v.getD Json.null))
          else pure doc2
        else pure doc2)
      -- OAS 3.0 content handling (source lines 187-218)
      let opV3 ← jsGet (← jsGet (← jsGet (some doc3) "paths") path) method
      let rb2 ← jsGet opV3 "requestBody"
      if Json.truthyO rb2 then do
        let contentO := (rb2.getD Json.null).get "content"
        if Json.truthyO contentO then do
          let contentV := contentO.getD Json.null
          let payload3 ← foldSteps (contentStep sampler doc3 contentV) payload2 contentV.forInKeys
          pure (payload3, doc3)
        else pure (payload2, doc3)
      else pure (payload2, doc3)

/-! ## Request Assembler (source: `createHar`, lines 34-58, and
`openApiToHarList`, lines 601-625) -/

/-- The HAR Request descriptor assembled per operation. -/
structure Har where
  method : String
  url : String
  headers : List Header
  queryString : List QSE
  httpVersion : String
  cookies : List Json
  headersSize : Int
  bodySize : Int
  postData : Option Json
deriving Repr

/-- `createHar(openApi, path, method, queryParamValues)`; returns the
descriptor together with the (possibly mutated) document. -/
def createHar (sampler : Sampler) (doc : Json) (path method : String)
    (values : List (String × Json)) : Except Unit (Har × Json) := do
  let baseUrl ← getBaseUrl doc
  let fullPath ← getFullPath doc path method
  let headers ← getHeadersArray doc path method
  let (qs, doc1) ← getQueryStrings doc path method values
  let (payload, doc2) ← getPayload sampler doc1 path method
  let postData := (match payload with
    | some p => if p.truthy then some p else none
    | none => none)
  pure ({ method := strUpper method
          url := Json.jsToStringO baseUrl ++ fullPath
          headers := headers
          queryString := qs
          httpVersion := "HTTP/1.1"
          cookies := []
          headersSize := 0
          bodySize := 0
          postData := postData }, doc2)

/-- One element of the list `openApiToHarList` returns. -/
structure HarEntry where
  method : String
  url : String
  description : Json
  har : Har
deriving Repr

/-- The inner method loop of `openApiToHarList` for one path. -/
def harListMethodLoop (sampler : Sampler) (baseUrl : Option Json) (path : String) :
    Json × List HarEntry → List JKey → Except Unit (Json × List HarEntry)
  | st, [] => pure st
  | (doc, acc), mk :: mks => do
    let method := match mk with | .fld s => s | .idx n => toString n
    let url := Json.jsToStringO baseUrl ++ path
    let (har, doc1) ← createHar sampler doc path method []
    let opV ← jsGet (← jsGet (← jsGet (some doc1) "paths") path) method
    let descO ← jsGet opV "description"
    let description := if Json.truthyO descO then descO.getD Json.null
      else Json.str "No description available"
    harListMethodLoop sampler baseUrl path
      (doc1, acc ++ [⟨strUpper method, url, description, har⟩]) mks

/-- The outer path loop of `openApiToHarList`. -/
def harListPathLoop (sampler : Sampler) (baseUrl : Option Json) :
    Json × List HarEntry → List JKey → Except Unit (Json × List HarEntry)
  | st, [] => pure st
  | (doc, acc), pk :: pks => do
    let path := match pk with | .fld s => s | .idx n => toString n
    let pathsO ← jsGet (some doc) "paths"
    let pathItemO := pathsO.bind (fun pv => pv.getK pk)
    let st1 ← harListMethodLoop sampler baseUrl path (doc, acc)
      ((pathItemO.getD Json.null).forInKeys)
    harListPathLoop sampler baseUrl st1 pks

/-- The body of `openApiToHarList` before the surrounding `try`. -/
def openApiToHarListBody (sampler : Sampler) (doc : Json) :
    Except Unit (List HarEntry) := do
  let baseUrl ← getBaseUrl doc
  let pathsO := doc.get "paths"
  let st ← harListPathLoop sampler baseUrl (doc, [])
    ((pathsO.getD Json.null).forInKeys)
  pure st.2

/-- `openApiToHarList` (exported as `getAll`): any exception is caught,
logged, and turned into an `undefined` return. -/
def openApiToHarList (sampler : Sampler) (doc : Json) : Option (List HarEntry) :=
  match openApiToHarListBody sampler doc with
  | .ok l => some l
  | .error _ => none

/-! ## Pure models of parameter extraction and the remove-then-append merge

These definitions are the specification-level counterparts used to state
the refinement theorems about the query/header builders. -/

/-- The `type` value the placeholder uses: `param.type || param.schema.type`. -/
def typeFld (p : Json) : Option Json :=
  match p.get "type" with
  | some tv => if tv.truthy then some tv else (p.get "schema").bind (fun s => s.get "type")
  | none => (p.get "schema").bind (fun s => s.get "type")

/-- The string type for the placeholder (meaningful under `typeOk`). -/
def typeStrOf (p : Json) : String :=
  match typeFld p with
  | some (.str t) => t
  | _ => ""

/-- The synthesized placeholder value of a parameter. -/
def phValueOf (p : Json) : String := "SOME_" ++ strUpper (typeStrOf p) ++ "_VALUE"

/-- The parameter's name as a string (meaningful under `paramNice`). -/
def pName (p : Json) : String :=
  match p.get "name" with
  | some (.str s) => s
  | _ => ""

/-- Is this an `in: <tag>` parameter (case-insensitive comparison as in the
source)? -/
def isIn (tag : String) (p : Json) : Bool :=
  match p.get "in" with
  | some (.str s) => strLower s = tag
  | _ => false

/-- The resolved value of an `in: query` parameter: override, `default`,
`schema.example`, placeholder (in that precedence). -/
def qValueOf (values : List (String × Json)) (p : Json) : String :=
  match values.lookup (Json.jsToStringO (p.get "name")) with
  | some ov => Json.jsToString ov
  | none =>
    match p.get "default" with
    | some dv => Json.jsToString dv
    | none =>
      match (p.get "schema").bind (fun s => s.get "example") with
      | some ex => Json.jsToString ex
      | none => phValueOf p

/-- `param.type || param.schema.type` names a string type (otherwise the
placeholder computation throws). -/
def typeOk (p : Json) : Bool :=
  match typeFld p with
  | some (.str _) => true
  | _ => false

/-- The parameter is not the `null` value (property reads would throw). -/
def pNotNull (p : Json) : Bool := match p with | .null => false | _ => true

/-- The parameter's `name` is a string. -/
def nameOkB (p : Json) : Bool :=
  match p.get "name" with | some (.str _) => true | _ => false

/-- The parameter's `schema`, when present, is not `null` and carries no
`$ref` (so schema resolution neither throws nor mutates). -/
def schemaOkB (p : Json) : Bool :=
  match p.get "schema" with
  | none => true
  | some .null => false
  | some s => (s.get "$ref").isNone

/-- The parameter's `in` is absent or a string, and the relevant `in` kinds
have the type information their value synthesis reads. -/
def inOkB (p : Json) : Bool :=
  match p.get "in" with
  | none => true
  | some (.str s) =>
    (if strLower s = "query" ∨ strLower s = "header" then typeOk p else true) &&
    (if strLower s = "formdata" then
       (match p.get "type" with | some (.str _) => true | _ => false) else true)
  | some _ => false

/-- A parameter value on which one loop iteration of the builders runs
without throwing and without mutating the document. -/
def paramNice (p : Json) : Bool :=
  pNotNull p && (p.get "$ref").isNone && nameOkB p && schemaOkB p && inOkB p

/-- The query-string entries one parameter list contributes. -/
def qEntries (values : List (String × Json)) (ps : List Json) : List QSE :=
  ps.filterMap (fun p => if isIn "query" p then some ⟨pName p, qValueOf values p⟩ else none)

/-- The header entries one parameter list contributes. -/
def hEntries (ps : List Json) : List Header :=
  ps.filterMap (fun p => if isIn "header" p then some ⟨pName p, Json.str (phValueOf p)⟩ else none)

/-- One step of the remove-then-append merge used for method-level
entries. -/
def mergeStep {α : Type} (nameOf : α → String) (st : List α × List String) (e : α) :
    List α × List String :=
  if st.2.contains (strLower (nameOf e)) then
    ((st.1.filter (fun x => ¬ (strLower (nameOf x) = strLower (nameOf e)))) ++ [e], st.2)
  else (st.1 ++ [e], st.2 ++ [strLower (nameOf e)])

/-- Append path-level entries (every entry is pushed; its lowercased name is
recorded). -/
def appendPhase {α : Type} (nameOf : α → String) (st : List α × List String) (es : List α) :
    List α × List String :=
  (st.1 ++ es, st.2 ++ es.map (fun e => strLower (nameOf e)))

/-- The two-phase merge: path-level entries appended, then method-level
entries merged by remove-then-append. -/
def mergeEntries {α : Type} (nameOf : α → String) (pathEs opEs : List α) : List α × List String :=
  opEs.foldl (mergeStep nameOf) (appendPhase nameOf ([], []) pathEs)

/-! ## Basic lemmas about the document model -/

@[simp] theorem Json.get_obj (fl : List (String × Json)) (k : String) :
    (Json.obj fl).get k = fl.lookup k := rfl

@[simp] theorem Json.get_null (k : String) : Json.null.get k = none := rfl

@[simp] theorem Json.get_str (s : String) (k : String) : (Json.str s).get k = none := rfl

@[simp] theorem Json.getK_fld (j : Json) (s : String) : j.getK (.fld s) = j.get s := by
  cases j <;> rfl

@[simp] theorem Json.getK_arr_idx (xs : List Json) (n : Nat) :
    (Json.arr xs).getK (.idx n) = xs.get? n := rfl

@[simp] theorem Json.getPath_nil (j : Json) : j.getPath [] = some j := rfl

theorem Json.getPath_cons (j : Json) (k : JKey) (ks : List JKey) :
    j.getPath (k :: ks) = (j.getK k).bind (fun c => c.getPath ks) := by
  cases h : j.getK k <;> simp [Json.getPath, h]

theorem Json.getPath_append (j : Json) (l1 l2 : List JKey) :
    j.getPath (l1 ++ l2) = (j.getPath l1).bind (fun c => c.getPath l2) := by
  induction l1 generalizing j with
  | nil => simp
  | cons k ks ih =>
    rw [List.cons_append, Json.getPath_cons, Json.getPath_cons]
    cases j.getK k <;> simp [ih]

@[simp] theorem jsGet_none (k : String) : jsGet none k = .error () := rfl

@[simp] theorem jsGet_null (k : String) : jsGet (some Json.null) k = .error () := rfl

@[simp] theorem jsGet_obj (fl : List (String × Json)) (k : String) :
    jsGet (some (Json.obj fl)) k = .ok (fl.lookup k) := rfl

@[simp] theorem jsGet_arr (xs : List Json) (k : String) :
    jsGet (some (Json.arr xs)) k = .ok ((Json.arr xs).get k) := rfl

@[simp] theorem jsGet_str (s k : String) : jsGet (some (Json.str s)) k = .ok none := rfl

theorem jsGet_some_of_ne_null (j : Json) (k : String) (h : j ≠ Json.null) :
    jsGet (some j) k = .ok (j.get k) := by
  cases j <;> first | rfl | exact absurd rfl h

@[simp] theorem Json.forInKeys_arr (xs : List Json) :
    (Json.arr xs).forInKeys = (List.range xs.length).map JKey.idx := rfl

@[simp] theorem Json.forInKeys_obj (fl : List (String × Json)) :
    (Json.obj fl).forInKeys = fl.map (fun kv => JKey.fld kv.1) := rfl

@[simp] theorem foldSteps_nil {σ : Type} (step : σ → JKey → Except Unit σ) (st : σ) :
    foldSteps step st [] = .ok st := rfl

theorem foldSteps_cons_ok {σ : Type} {step : σ → JKey → Except Unit σ} {st st' : σ} {k : JKey}
    (ks : List JKey) (h : step st k = .ok st') :
    foldSteps step st (k :: ks) = foldSteps step st' ks := by
  simp only [foldSteps]; rw [h]; rfl

theorem foldSteps_cons_error {σ : Type} {step : σ → JKey → Except Unit σ} {st : σ} {k : JKey}
    (ks : List JKey) (h : step st k = .error ()) :
    foldSteps step st (k :: ks) = .error () := by
  simp only [foldSteps]; rw [h]; rfl

theorem foldSteps_cons {σ : Type} (step : σ → JKey → Except Unit σ) (st : σ) (k : JKey)
    (ks : List JKey) :
    foldSteps step st (k :: ks) =
      (step st k).bind (fun st' => foldSteps step st' ks) := by
  cases h : step st k with
  | ok st' => rw [foldSteps_cons_ok ks h]; rfl
  | error e => cases e; rw [foldSteps_cons_error ks h]; rfl

@[simp] theorem eu_bind_ok {α β : Type} (a : α) (f : α → Except Unit β) :
    (Bind.bind (Except.ok a : Except Unit α) f) = f a := rfl

@[simp] theorem eu_bind_error {α β : Type} (e : Unit) (f : α → Except Unit β) :
    (Bind.bind (Except.error e : Except Unit α) f) = Except.error e := rfl

@[simp] theorem eu_pure {α : Type} (a : α) : (pure a : Except Unit α) = Except.ok a := rfl

theorem jsGet_of_notnull {x : Json} (h : pNotNull x = true) (k : String) :
    jsGet (some x) k = .ok (x.get k) := by
  cases x <;> simp_all [pNotNull, jsGet]

theorem paramSite_noref {doc : Json} {base : List JKey} {x : Json}
    (hx : doc.getPath base = some x) (hnn : pNotNull x = true)
    (href : (x.get "$ref").isNone = true) :
    paramSite doc base = .ok (.at_ base) := by
  have h0 : x.get "$ref" = none := Option.isNone_iff_eq_none.mp href
  simp only [paramSite, hx, jsGet_of_notnull hnn, h0, eu_bind_ok, eu_pure]

theorem schemaOkB_elim {x s : Json} (hs : schemaOkB x = true)
    (h : x.get "schema" = some s) :
    pNotNull s = true ∧ s.get "$ref" = none := by
  unfold schemaOkB at hs
  rw [h] at hs
  cases s
  case null => simp at hs
  all_goals exact ⟨rfl, Option.isNone_iff_eq_none.mp hs⟩

theorem resolveSchemaAt_nice {doc : Json} {base : List JKey} {x : Json}
    (hx : doc.getPath base = some x) (hnn : pNotNull x = true)
    (hs : schemaOkB x = true) :
    resolveSchemaAt doc (.at_ base) = .ok doc := by
  simp only [resolveSchemaAt, siteVal, hx, jsGet_of_notnull hnn, eu_bind_ok]
  cases hsch : x.get "schema" with
  | none => simp only [hsch]; rfl
  | some s =>
    obtain ⟨hnns, hrefs⟩ := schemaOkB_elim hs hsch
    simp only [hsch, eu_bind_ok, jsGet_of_notnull hnns, hrefs]
    rfl

@[simp] theorem expectStr_str (s : String) : expectStr (some (.str s)) = .ok s := rfl

theorem nameOkB_elim {x : Json} (h : nameOkB x = true) :
    x.get "name" = some (.str (pName x)) := by
  unfold nameOkB at h
  unfold pName
  cases hn : x.get "name" with
  | none => rw [hn] at h; simp at h
  | some v =>
    rw [hn] at h
    cases v <;> simp_all

theorem typeOk_elim {x : Json} (h : typeOk x = true) :
    typeFld x = some (.str (typeStrOf x)) := by
  unfold typeOk at h
  unfold typeStrOf
  cases htf : typeFld x with
  | none => rw [htf] at h; simp at h
  | some v =>
    rw [htf] at h
    cases v <;> simp_all

theorem jsInLower_absent {x : Json} (hnn : pNotNull x = true) (h : x.get "in" = none) :
    jsInLower (some x) = .ok none := by
  simp only [jsInLower, jsGet_of_notnull hnn, h, eu_bind_ok]
  rfl

theorem jsInLower_str {x : Json} {s : String} (hnn : pNotNull x = true)
    (h : x.get "in" = some (.str s)) :
    jsInLower (some x) = .ok (some (strLower s)) := by
  simp only [jsInLower, jsGet_of_notnull hnn, h, eu_bind_ok, expectStr_str, eu_pure]

theorem placeholderOf_nice {x : Json} (hnn : pNotNull x = true)
    (hs : schemaOkB x = true) (ht : typeOk x = true) :
    placeholderOf (some x) = .ok (phValueOf x) := by
  have htf := typeOk_elim ht
  simp only [placeholderOf, jsGet_of_notnull hnn, eu_bind_ok]
  unfold typeFld at htf
  cases hty : x.get "type" with
  | some tv =>
    rw [hty] at htf
    by_cases htr : tv.truthy = true
    · simp only [htr, if_true] at htf
      obtain rfl := Option.some_injective _ htf
      simp only [Json.truthyO, htr, if_true, eu_pure, eu_bind_ok, expectStr_str,
        phValueOf]
    · simp only [htr, if_false, Bool.false_eq_true] at htf
      simp only [Json.truthyO, htr, Bool.false_eq_true, if_false, eu_bind_ok]
      cases hsch : x.get "schema" with
      | none => rw [hsch] at htf; simp at htf
      | some s =>
        obtain ⟨hnns, _⟩ := schemaOkB_elim hs hsch
        rw [hsch] at htf
        simp only [Option.some_bind] at htf
        simp only [hsch, jsGet_of_notnull hnns, eu_bind_ok, htf, expectStr_str, eu_pure,
          phValueOf]
  | none =>
    rw [hty] at htf
    simp only [Option.none_bind] at htf
    simp only [hty, Json.truthyO, Bool.false_eq_true, if_false, eu_bind_ok]
    cases hsch : x.get "schema" with
    | none => rw [hsch] at htf; simp at htf
    | some s =>
      obtain ⟨hnns, _⟩ := schemaOkB_elim hs hsch
      rw [hsch] at htf
      simp only [Option.some_bind] at htf
      simp only [hsch, jsGet_of_notnull hnns, eu_bind_ok, htf, expectStr_str, eu_pure,
        phValueOf]

theorem queryValue_nice {values : List (String × Json)} {x : Json}
    (hnn : pNotNull x = true) (hs : schemaOkB x = true) (ht : typeOk x = true) :
    queryValue values (some x) = .ok (qValueOf values x) := by
  simp only [queryValue, placeholderOf_nice hnn hs ht, eu_bind_ok,
    jsGet_of_notnull hnn]
  unfold qValueOf
  cases hlk : values.lookup (Json.jsToStringO (x.get "name")) with
  | some ov => simp [hlk]
  | none =>
    simp only [hlk, eu_bind_ok]
    cases hd : x.get "default" with
    | some dv => simp [hd]
    | none =>
      simp only [hd, eu_bind_ok]
      cases hsch : x.get "schema" with
      | none => simp [hsch]
      | some s =>
        obtain ⟨hnns, _⟩ := schemaOkB_elim hs hsch
        simp only [hsch, jsGet_of_notnull hnns, eu_bind_ok, Option.some_bind]
        cases hex : s.get "example" with
        | some ex => simp [hex]
        | none => simp [hex]

theorem paramNameStr_nice {x : Json} (hnn : pNotNull x = true) (hb : nameOkB x = true) :
    paramNameStr (some x) = .ok (pName x) := by
  simp only [paramNameStr, jsGet_of_notnull hnn, nameOkB_elim hb, eu_bind_ok,
    expectStr_str]

/-- Destructured form of `paramNice`. -/
theorem paramNice_elim {x : Json} (h : paramNice x = true) :
    pNotNull x = true ∧ (x.get "$ref").isNone = true ∧ nameOkB x = true ∧
      schemaOkB x = true ∧ inOkB x = true := by
  unfold paramNice at h
  simp only [Bool.and_eq_true] at h
  exact ⟨h.1.1.1.1, h.1.1.1.2, h.1.1.2, h.1.2, h.2⟩

/-- `in` analysis of a nice parameter: either absent or a string, and for
`in: query`/`in: header` the type is available. -/
theorem inOkB_elim {x : Json} (h : inOkB x = true) :
    x.get "in" = none ∨
      (∃ s, x.get "in" = some (.str s) ∧
        ((strLower s = "query" ∨ strLower s = "header") → typeOk x = true)) := by
  unfold inOkB at h
  cases hin : x.get "in" with
  | none => exact Or.inl rfl
  | some v =>
    rw [hin] at h
    cases v with
    | str s =>
      refine Or.inr ⟨s, rfl, fun hq => ?_⟩
      simp only [Bool.and_eq_true] at h
      have := h.1
      rwa [if_pos hq] at this
    | null => simp at h
    | bool b => simp at h
    | num n => simp at h
    | arr xs => simp at h
    | obj fl => simp at h

/-- One nice path-level iteration of the query loop: the document is
unchanged, and exactly the extraction entry is appended. -/
theorem qsStepPath_nice {values : List (String × Json)} {loc : List JKey}
    {doc : Json} {qs : List QSE} {d : List String} {k : JKey} {x : Json}
    (hx : doc.getPath (loc ++ [k]) = some x) (hn : paramNice x = true) :
    qsStepPath values loc (doc, qs, d) k =
      .ok (doc, qs ++ (if isIn "query" x then [⟨pName x, qValueOf values x⟩] else []),
        d ++ (if isIn "query" x then [strLower (pName x)] else [])) := by
  obtain ⟨hnn, href, hnm, hsch, hin⟩ := paramNice_elim hn
  simp only [qsStepPath, paramSite_noref hx hnn href, eu_bind_ok,
    resolveSchemaAt_nice hx hnn hsch, siteVal, hx]
  rcases inOkB_elim hin with hin0 | ⟨s, hins, hty⟩
  · rw [jsInLower_absent hnn hin0]
    simp only [eu_bind_ok]
    have : isIn "query" x = false := by unfold isIn; rw [hin0]
    simp [this]
  · rw [jsInLower_str hnn hins]
    simp only [eu_bind_ok]
    by_cases hq : strLower s = "query"
    · rw [hq]
      have hiq : isIn "query" x = true := by unfold isIn; rw [hins]; simp [hq]
      simp only [queryValue_nice hnn hsch (hty (Or.inl hq)), eu_bind_ok,
        paramNameStr_nice hnn hnm, eu_pure, hiq, if_true]
    · have hiq : isIn "query" x = false := by
        unfold isIn; rw [hins]; simp [hq]
      rw [hiq]
      simp only [Bool.false_eq_true, if_false]
      split
      · rename_i heq
        exact absurd (by injection heq) hq
      · simp

/-- One nice method-level iteration of the query loop: the document is
unchanged and the state is updated by the remove-then-append merge step. -/
theorem qsStepOp_nice {values : List (String × Json)} {loc : List JKey}
    {doc : Json} {qs : List QSE} {d : List String} {k : JKey} {x : Json}
    (hx : doc.getPath (loc ++ [k]) = some x) (hn : paramNice x = true) :
    qsStepOp values loc (doc, qs, d) k =
      .ok (doc,
        if isIn "query" x then
          ((mergeStep QSE.name (qs, d) ⟨pName x, qValueOf values x⟩).1,
           (mergeStep QSE.name (qs, d) ⟨pName x, qValueOf values x⟩).2)
        else (qs, d)) := by
  obtain ⟨hnn, href, hnm, hsch, hin⟩ := paramNice_elim hn
  simp only [qsStepOp, paramSite_noref hx hnn href, eu_bind_ok,
    resolveSchemaAt_nice hx hnn hsch, siteVal, hx]
  rcases inOkB_elim hin with hin0 | ⟨s, hins, hty⟩
  · rw [jsInLower_absent hnn hin0]
    simp only [eu_bind_ok]
    have hiq : isIn "query" x = false := by unfold isIn; rw [hin0]
    simp [hiq]
  · rw [jsInLower_str hnn hins]
    simp only [eu_bind_ok]
    by_cases hq : strLower s = "query"
    · rw [hq]
      have hiq : isIn "query" x = true := by unfold isIn; rw [hins]; simp [hq]
      simp only [queryValue_nice hnn hsch (hty (Or.inl hq)), eu_bind_ok,
        paramNameStr_nice hnn hnm, eu_pure, hiq, if_true, mergeStep]
      split
      · rename_i hc
        simp [hc]
      · rename_i hc
        simp [hc]
    · have hiq : isIn "query" x = false := by
        unfold isIn; rw [hins]; simp [hq]
      rw [hiq]
      simp only [Bool.false_eq_true, if_false]
      split
      · rename_i heq
        exact absurd (by injection heq) hq
      · simp

theorem get?_of_drop_cons {α : Type} {ps l : List α} {x : α} :
    ∀ {i : Nat}, ps.drop i = x :: l → ps.get? i = some x := by
  induction ps with
  | nil => intro i h; simp at h
  | cons y ys ih =>
    intro i h
    cases i with
    | zero => simp at h; simp [h.1]
    | succ i => exact ih h

theorem drop_succ_of_drop_cons {α : Type} {ps l : List α} {x : α} :
    ∀ {i : Nat}, ps.drop i = x :: l → ps.drop (i + 1) = l := by
  induction ps with
  | nil => intro i h; simp at h
  | cons y ys ih =>
    intro i h
    cases i with
    | zero => simp at h; simp [h.2]
    | succ i => exact ih h

/-- Refinement of an index loop by a pure fold: when every reachable step
succeeds and acts purely on the state, the whole loop is the fold of the
pure action over the array elements. -/
theorem foldSteps_idx_go {σ : Type} {step : σ → JKey → Except Unit σ}
    {ps : List Json} {g : σ → Json → σ}
    (hstep : ∀ st i x, ps.get? i = some x → step st (.idx i) = .ok (g st x)) :
    ∀ (l : List Json) (i : Nat), ps.drop i = l → ∀ st : σ,
      foldSteps step st ((List.range' i l.length).map JKey.idx) = .ok (l.foldl g st) := by
  intro l
  induction l with
  | nil => intro i _ st; simp
  | cons x rest ih =>
    intro i hdrop st
    have hx : ps.get? i = some x := get?_of_drop_cons hdrop
    have hd : ps.drop (i + 1) = rest := drop_succ_of_drop_cons hdrop
    rw [show List.range' i (x :: rest).length = i :: List.range' (i + 1) rest.length from rfl]
    rw [List.map_cons, foldSteps_cons_ok _ (hstep st i x hx)]
    exact ih (i + 1) hd (g st x)

/-- The loop over the keys of an array value, refined to a pure fold. -/
theorem foldSteps_arr {σ : Type} {step : σ → JKey → Except Unit σ}
    {ps : List Json} {g : σ → Json → σ}
    (hstep : ∀ st i x, ps.get? i = some x → step st (.idx i) = .ok (g st x)) (st : σ) :
    foldSteps step st (Json.arr ps).forInKeys = .ok (ps.foldl g st) := by
  have := foldSteps_idx_go hstep ps 0 rfl st
  rwa [Json.forInKeys_arr, List.range_eq_range']

/-- Invariant-carrying version of the index-loop refinement. -/
theorem foldSteps_idx_go_inv {σ : Type} {step : σ → JKey → Except Unit σ}
    {ps : List Json} {g : σ → Json → σ} {P : σ → Prop}
    (hstep : ∀ st i x, P st → ps.get? i = some x → step st (.idx i) = .ok (g st x))
    (hpres : ∀ st x, P st → P (g st x)) :
    ∀ (l : List Json) (i : Nat), ps.drop i = l → ∀ st : σ, P st →
      foldSteps step st ((List.range' i l.length).map JKey.idx) = .ok (l.foldl g st) := by
  intro l
  induction l with
  | nil => intro i _ st _; simp
  | cons x rest ih =>
    intro i hdrop st hP
    have hx : ps.get? i = some x := get?_of_drop_cons hdrop
    have hd : ps.drop (i + 1) = rest := drop_succ_of_drop_cons hdrop
    rw [show List.range' i (x :: rest).length = i :: List.range' (i + 1) rest.length from rfl]
    rw [List.map_cons, foldSteps_cons_ok _ (hstep st i x hP hx)]
    exact ih (i + 1) hd (g st x) (hpres st x hP)

/-- Invariant-carrying loop-over-array refinement. -/
theorem foldSteps_arr_inv {σ : Type} {step : σ → JKey → Except Unit σ}
    {ps : List Json} {g : σ → Json → σ} {P : σ → Prop}
    (hstep : ∀ st i x, P st → ps.get? i = some x → step st (.idx i) = .ok (g st x))
    (hpres : ∀ st x, P st → P (g st x)) (st : σ) (hP : P st) :
    foldSteps step st (Json.arr ps).forInKeys = .ok (ps.foldl g st) := by
  have := foldSteps_idx_go_inv hstep hpres ps 0 rfl st hP
  rwa [Json.forInKeys_arr, List.range_eq_range']

/-- The pure action of one path-level query iteration. -/
def qsPureStepPath (values : List (String × Json))
    (st : Json × List QSE × List String) (x : Json) : Json × List QSE × List String :=
  (st.1, st.2.1 ++ (if isIn "query" x then [⟨pName x, qValueOf values x⟩] else []),
   st.2.2 ++ (if isIn "query" x then [strLower (pName x)] else []))

/-- The pure action of one method-level query iteration. -/
def qsPureStepOp (values : List (String × Json))
    (st : Json × List QSE × List String) (x : Json) : Json × List QSE × List String :=
  (st.1,
   if isIn "query" x then mergeStep QSE.name (st.2.1, st.2.2) ⟨pName x, qValueOf values x⟩
   else (st.2.1, st.2.2))

/-- The entry a parameter contributes to the query string, if any. -/
def qEntryOf (values : List (String × Json)) (p : Json) : Option QSE :=
  if isIn "query" p then some ⟨pName p, qValueOf values p⟩ else none

theorem qEntries_eq_filterMap (values : List (String × Json)) (ps : List Json) :
    qEntries values ps = ps.filterMap (qEntryOf values) := rfl

/-- Folding a guarded action equals folding over the `filterMap`. -/
theorem foldl_filterMap_guard {α β σ : Type} (f : α → Option β) (g : σ → β → σ) :
    ∀ (l : List α) (st : σ),
      List.foldl (fun st x => match f x with | some e => g st e | none => st) st l =
        List.foldl g st (l.filterMap f) := by
  intro l
  induction l with
  | nil => intro st; rfl
  | cons x rest ih =>
    intro st
    cases hf : f x with
    | none => simp [List.filterMap_cons, hf, ih]
    | some e => simp [List.filterMap_cons, hf, ih]

/-- The path-level fold appends extraction entries and their lowercased
names. -/
theorem foldl_qsPureStepPath (values : List (String × Json)) :
    ∀ (ps : List Json) (st : Json × List QSE × List String),
      List.foldl (qsPureStepPath values) st ps =
        (st.1, st.2.1 ++ qEntries values ps,
         st.2.2 ++ (qEntries values ps).map (fun e => strLower e.name)) := by
  intro ps
  induction ps with
  | nil => intro st; simp [qEntries]
  | cons x rest ih =>
    intro st
    rw [List.foldl_cons, ih]
    unfold qsPureStepPath qEntries
    by_cases hq : isIn "query" x = true
    · simp [hq, List.filterMap_cons]
    · simp only [hq, Bool.false_eq_true, if_false, List.append_nil]
      simp [List.filterMap_cons, hq]

/-- The method-level fold is the merge over the extraction entries. -/
theorem foldl_qsPureStepOp (values : List (String × Json)) (ps : List Json)
    (st : Json × List QSE × List String) :
    List.foldl (qsPureStepOp values) st ps =
      (st.1, List.foldl (mergeStep QSE.name) (st.2.1, st.2.2) (qEntries values ps)) := by
  rw [qEntries_eq_filterMap]
  induction ps generalizing st with
  | nil => simp
  | cons x rest ih =>
    rw [List.foldl_cons, ih, List.filterMap_cons]
    unfold qsPureStepOp qEntryOf
    by_cases hq : isIn "query" x = true
    · simp [hq]
    · simp [hq]

@[simp] theorem jlookup_cons {β : Type} (k k' : String) (v : β) (es : List (String × β)) :
    List.lookup k ((k', v) :: es) = if k == k' then some v else List.lookup k es := by
  cases h : k == k' <;> simp [List.lookup, h]

/-- A path item holding optional path-level parameters and one operation. -/
def mkPathItem (pps : Option (List Json)) (m : String) (opFields : List (String × Json)) : Json :=
  Json.obj ((match pps with
    | some l => [("parameters", Json.arr l)]
    | none => []) ++ [(m, Json.obj opFields)])

/-- A document with one path and one operation, plus arbitrary further
top-level fields. -/
def mkDocT (top : List (String × Json)) (p m : String) (pps : Option (List Json))
    (opFields : List (String × Json)) : Json :=
  Json.obj (("paths", Json.obj [(p, mkPathItem pps m opFields)]) :: top)

theorem mkDocT_paths (top : List (String × Json)) (p m : String) (pps : Option (List Json))
    (opFields : List (String × Json)) :
    (mkDocT top p m pps opFields).get "paths" = some (Json.obj [(p, mkPathItem pps m opFields)]) := by
  simp [mkDocT]

theorem mkPathItem_params (pps : Option (List Json)) (m : String)
    (opFields : List (String × Json)) (hm : m ≠ "parameters") :
    (mkPathItem pps m opFields).get "parameters" =
      (match pps with | some l => some (Json.arr l) | none => none) := by
  cases pps with
  | some l => simp [mkPathItem]
  | none =>
    simp only [mkPathItem, Json.get_obj, List.nil_append, jlookup_cons]
    rw [if_neg (by simpa using (Ne.symm hm))]
    rfl

theorem mkPathItem_op (pps : Option (List Json)) (m : String)
    (opFields : List (String × Json)) (hm : m ≠ "parameters") :
    (mkPathItem pps m opFields).get m = some (Json.obj opFields) := by
  cases pps with
  | some l =>
    simp only [mkPathItem, Json.get_obj, List.cons_append, List.nil_append, jlookup_cons]
    rw [if_neg (by simpa using hm)]
    simp
  | none => simp [mkPathItem]

theorem mkDocT_pparams_loc (top : List (String × Json)) (p m : String)
    (pps : Option (List Json)) (opFields : List (String × Json)) (hm : m ≠ "parameters") :
    (mkDocT top p m pps opFields).getPath [.fld "paths", .fld p, .fld "parameters"] =
      (match pps with | some l => some (Json.arr l) | none => none) := by
  simp only [Json.getPath, Json.getK_fld, mkDocT_paths, Json.get_obj, jlookup_cons,
    beq_self_eq_true, if_true, mkPathItem_params pps m opFields hm]
  cases pps <;> rfl

theorem mkDocT_oparams_loc (top : List (String × Json)) (p m : String)
    (pps : Option (List Json)) (opFields : List (String × Json)) (hm : m ≠ "parameters") :
    (mkDocT top p m pps opFields).getPath [.fld "paths", .fld p, .fld m, .fld "parameters"] =
      opFields.lookup "parameters" := by
  simp only [Json.getPath, Json.getK_fld, mkDocT_paths, Json.get_obj, jlookup_cons,
    beq_self_eq_true, if_true, mkPathItem_op pps m opFields hm]
  cases List.lookup "parameters" opFields <;> rfl

theorem pNotNull_mkPathItem (pps : Option (List Json)) (m : String)
    (opFields : List (String × Json)) : pNotNull (mkPathItem pps m opFields) = true := by
  cases pps <;> rfl

theorem pNotNull_mkDocT (top : List (String × Json)) (p m : String)
    (pps : Option (List Json)) (opFields : List (String × Json)) :
    pNotNull (mkDocT top p m pps opFields) = true := rfl

/-- The path-level query loop over a nice list, at the canonical document. -/
theorem qsLoopPath_mkDocT {top : List (String × Json)} {p m : String}
    {l : List Json} {opFields : List (String × Json)} {values : List (String × Json)}
    (hm : m ≠ "parameters") (hn : ∀ x ∈ l, paramNice x = true)
    (st : Json × List QSE × List String)
    (hP : st.1 = mkDocT top p m (some l) opFields) :
    foldSteps (qsStepPath values [.fld "paths", .fld p, .fld "parameters"]) st
        (Json.arr l).forInKeys =
      .ok (List.foldl (qsPureStepPath values) st l) := by
  apply foldSteps_arr_inv (P := fun st => st.1 = mkDocT top p m (some l) opFields)
  · intro st i x hPs hx
    obtain ⟨s1, s2, s3⟩ := st
    simp only at hPs
    subst hPs
    have hread : (mkDocT top p m (some l) opFields).getPath
        ([JKey.fld "paths", JKey.fld p, JKey.fld "parameters"] ++ [JKey.idx i]) = some x := by
      rw [Json.getPath_append, mkDocT_pparams_loc top p m (some l) opFields hm]
      simp only [Option.some_bind, Json.getPath_cons, Json.getK_arr_idx, hx,
        Json.getPath_nil]
    exact qsStepPath_nice hread (hn x (List.get?_mem hx))
  · intro st x hPs
    simpa [qsPureStepPath] using hPs
  · exact hP

/-- The method-level query loop over a nice list, at the canonical
document. -/
theorem qsLoopOp_mkDocT {top : List (String × Json)} {p m : String}
    {pps : Option (List Json)} {ops : List Json} {values : List (String × Json)}
    (hm : m ≠ "parameters") (hn : ∀ x ∈ ops, paramNice x = true)
    (st : Json × List QSE × List String)
    (hP : st.1 = mkDocT top p m pps [("parameters", Json.arr ops)]) :
    foldSteps (qsStepOp values [.fld "paths", .fld p, .fld m, .fld "parameters"]) st
        (Json.arr ops).forInKeys =
      .ok (List.foldl (qsPureStepOp values) st ops) := by
  apply foldSteps_arr_inv
    (P := fun st => st.1 = mkDocT top p m pps [("parameters", Json.arr ops)])
  · intro st i x hPs hx
    obtain ⟨s1, s2, s3⟩ := st
    simp only at hPs
    subst hPs
    have hread : (mkDocT top p m pps [("parameters", Json.arr ops)]).getPath
        ([JKey.fld "paths", JKey.fld p, JKey.fld m, JKey.fld "parameters"] ++ [JKey.idx i]) =
          some x := by
      rw [Json.getPath_append, mkDocT_oparams_loc top p m pps _ hm]
      simp only [jlookup_cons, beq_self_eq_true, if_true, Option.some_bind,
        Json.getPath_cons, Json.getK_arr_idx, hx, Json.getPath_nil]
    have h := @qsStepOp_nice values _ _ s2 s3 _ _ hread
      (hn x (List.get?_mem hx))
    rw [h]
    unfold qsPureStepOp
    by_cases hq : isIn "query" x = true <;> simp [hq]
  · intro st x hPs
    unfold qsPureStepOp
    simpa using hPs
  · exact hP

/-- The merged query-string list for the canonical document. -/
def qsMerged (values : List (String × Json)) (pps ops : List Json) : List QSE × List String :=
  List.foldl (mergeStep QSE.name)
    (qEntries values pps, (qEntries values pps).map (fun e => strLower e.name))
    (qEntries values ops)

/-- Refinement of `getQueryStrings` on the canonical document with nice
parameter lists: the document is returned unchanged and the query list is
the two-phase merge of the extraction entries. -/
theorem getQueryStrings_mkDocT (top : List (String × Json)) (p m : String)
    (pps : Option (List Json)) (ops : List Json) (values : List (String × Json))
    (hm : m ≠ "parameters")
    (hpn : ∀ x ∈ pps.getD [], paramNice x = true)
    (hon : ∀ x ∈ ops, paramNice x = true) :
    getQueryStrings (mkDocT top p m pps [("parameters", Json.arr ops)]) p m values =
      .ok ((qsMerged values (pps.getD []) ops).1,
           mkDocT top p m pps [("parameters", Json.arr ops)]) := by
  simp only [getQueryStrings]
  rw [jsGet_of_notnull (pNotNull_mkDocT top p m pps _) "paths", mkDocT_paths]
  simp only [eu_bind_ok, jsGet_obj, jlookup_cons, beq_self_eq_true, if_true]
  rw [jsGet_of_notnull (pNotNull_mkPathItem pps m _) "parameters",
    mkPathItem_params pps m _ hm]
  have hst1 : ∀ st1 : Json × List QSE × List String,
      st1 = (mkDocT top p m pps [("parameters", Json.arr ops)],
             qEntries values (pps.getD []),
             (qEntries values (pps.getD [])).map (fun e => strLower e.name)) →
      (do
        let pathsV1 ← jsGet (some st1.1) "paths"
        let pathItem1 ← jsGet pathsV1 p
        let opV ← jsGet pathItem1 m
        let st2 ← (match ← jsGet opV "parameters" with
          | none => pure (st1.1, st1.2.1, st1.2.2)
          | some pv =>
              foldSteps (qsStepOp values [JKey.fld "paths", JKey.fld p, JKey.fld m, JKey.fld "parameters"])
                (st1.1, st1.2.1, st1.2.2) pv.forInKeys)
        pure (st2.2.1, st2.1) : Except Unit (List QSE × Json)) =
      .ok ((qsMerged values (pps.getD []) ops).1,
           mkDocT top p m pps [("parameters", Json.arr ops)]) := by
    intro st1 hst
    subst hst
    simp only
    rw [jsGet_of_notnull (pNotNull_mkDocT top p m pps _) "paths", mkDocT_paths]
    simp only [eu_bind_ok, jsGet_obj, jlookup_cons, beq_self_eq_true, if_true]
    rw [jsGet_of_notnull (pNotNull_mkPathItem pps m _) m, mkPathItem_op pps m _ hm]
    simp only [eu_bind_ok, jsGet_obj, jlookup_cons, beq_self_eq_true, if_true]
    rw [qsLoopOp_mkDocT hm hon _ rfl]
    simp only [eu_bind_ok, foldl_qsPureStepOp, eu_pure, qsMerged]
  cases pps with
  | none =>
    simp only [Option.getD]
    have := hst1 (mkDocT top p m none [("parameters", Json.arr ops)], [], [])
      (by simp [qEntries])
    simpa only [eu_bind_ok] using this
  | some l =>
    simp only [eu_bind_ok]
    rw [qsLoopPath_mkDocT hm (by simpa using hpn) _ rfl]
    simp only [eu_bind_ok, foldl_qsPureStepPath]
    have := hst1 (mkDocT top p m (some l) [("parameters", Json.arr ops)],
      qEntries values l, (qEntries values l).map (fun e => strLower e.name)) (by simp)
    simpa only [eu_bind_ok] using this

/-! ## Invariants of the remove-then-append merge -/

/-- The merge-state invariant: every collected entry's lowercased name is
recorded, and lowercased names are pairwise distinct. -/
def MergeInv {α : Type} (nameOf : α → String) (st : List α × List String) : Prop :=
  (∀ e ∈ st.1, strLower (nameOf e) ∈ st.2) ∧
    st.1.Pairwise (fun a b => strLower (nameOf a) ≠ strLower (nameOf b))

theorem mergeStep_defined_mono {α : Type} (nameOf : α → String)
    (st : List α × List String) (e : α) :
    ∀ a ∈ st.2, a ∈ (mergeStep nameOf st e).2 := by
  intro a ha
  unfold mergeStep
  split
  · exact ha
  · exact List.mem_append_left _ ha

theorem mergeStep_inv {α : Type} (nameOf : α → String)
    {st : List α × List String} (e : α) (h : MergeInv nameOf st) :
    MergeInv nameOf (mergeStep nameOf st e) := by
  obtain ⟨hmem, hpw⟩ := h
  unfold MergeInv mergeStep
  split
  · rename_i hc
    refine ⟨?_, ?_⟩
    · intro e' he'
      rcases List.mem_append.mp he' with hl | hr
      · exact hmem e' (List.mem_filter.mp hl).1
      · rcases List.mem_singleton.mp hr with rfl
        simpa using hc
    · rw [List.pairwise_append]
      refine ⟨hpw.filter _, List.pairwise_singleton _ _, ?_⟩
      intro a ha b hb
      rcases List.mem_singleton.mp hb with rfl
      have := (List.mem_filter.mp ha).2
      simpa using this
  · rename_i hc
    have hne : strLower (nameOf e) ∉ st.2 := by simpa using hc
    refine ⟨?_, ?_⟩
    · intro e' he'
      rcases List.mem_append.mp he' with hl | hr
      · exact List.mem_append_left _ (hmem e' hl)
      · rcases List.mem_singleton.mp hr with rfl
        exact List.mem_append_right _ (List.mem_singleton_self _)
    · rw [List.pairwise_append]
      refine ⟨hpw, List.pairwise_singleton _ _, ?_⟩
      intro a ha b hb
      rcases List.mem_singleton.mp hb with rfl
      intro hab
      exact hne (hab ▸ hmem a ha)

theorem foldl_mergeStep_inv {α : Type} (nameOf : α → String)
    (opEs : List α) {st : List α × List String} (h : MergeInv nameOf st) :
    MergeInv nameOf (List.foldl (mergeStep nameOf) st opEs) := by
  induction opEs generalizing st with
  | nil => exact h
  | cons e rest ih => exact ih (mergeStep_inv nameOf e h)

theorem foldl_mergeStep_defined_mono {α : Type} (nameOf : α → String)
    (opEs : List α) (st : List α × List String) :
    ∀ a ∈ st.2, a ∈ (List.foldl (mergeStep nameOf) st opEs).2 := by
  induction opEs generalizing st with
  | nil => exact fun a ha => ha
  | cons e rest ih =>
    intro a ha
    exact ih (mergeStep nameOf st e) a (mergeStep_defined_mono nameOf st e a ha)

/-- The entries with a given lowercased name. -/
def ciFilter {α : Type} (nameOf : α → String) (l : String) (es : List α) : List α :=
  es.filter (fun x => strLower (nameOf x) = l)

theorem ciFilter_mergeStep_ne {α : Type} (nameOf : α → String) {l : String}
    (st : List α × List String) {e : α} (h : ¬ strLower (nameOf e) = l) :
    ciFilter nameOf l (mergeStep nameOf st e).1 = ciFilter nameOf l st.1 := by
  unfold mergeStep ciFilter
  have h1 : List.filter (fun x => strLower (nameOf x) = l) [e] = [] := by simp [h]
  split
  · simp only [List.filter_append, h1, List.append_nil, List.filter_filter]
    apply List.filter_congr
    intro x _
    by_cases hx : strLower (nameOf x) = l
    · have : ¬ strLower (nameOf x) = strLower (nameOf e) := fun he => h (he ▸ hx)
      simp [hx, this]
      exact fun he => h he.symm
    · simp [hx]
  · simp only [List.filter_append, h1, List.append_nil]

theorem ciFilter_mergeStep_eq {α : Type} (nameOf : α → String) {l : String}
    (st : List α × List String) {e : α} (h : strLower (nameOf e) = l)
    (hdef : l ∈ st.2) :
    ciFilter nameOf l (mergeStep nameOf st e).1 = [e] := by
  unfold mergeStep ciFilter
  rw [if_pos (by rw [h]; simpa using hdef)]
  rw [List.filter_append, List.filter_filter]
  have h1 : List.filter (fun x => strLower (nameOf x) = l) [e] = [e] := by simp [h]
  have h2 : List.filter (fun a => decide (strLower (nameOf a) = l) &&
      decide ¬(strLower (nameOf a) = strLower (nameOf e))) st.1 = [] := by
    apply List.filter_eq_nil_iff.mpr
    intro x _
    by_cases hx : strLower (nameOf x) = l
    · simp [hx, h]
    · simp [hx]
  rw [h1, h2, List.nil_append]

theorem ciFilter_foldl_no_op {α : Type} (nameOf : α → String) {l : String}
    (opEs : List α) (st : List α × List String)
    (h : ∀ e ∈ opEs, ¬ strLower (nameOf e) = l) :
    ciFilter nameOf l (List.foldl (mergeStep nameOf) st opEs).1 = ciFilter nameOf l st.1 := by
  induction opEs generalizing st with
  | nil => rfl
  | cons e rest ih =>
    rw [List.foldl_cons, ih _ (fun x hx => h x (List.mem_cons_of_mem e hx)),
      ciFilter_mergeStep_ne nameOf st (h e (List.mem_cons_self e rest))]

theorem ciFilter_foldl_mergeStep {α : Type} (nameOf : α → String) {l : String}
    (opEs : List α) (st : List α × List String) (hdef : l ∈ st.2) :
    ∀ e, (ciFilter nameOf l opEs).getLast? = some e →
      ciFilter nameOf l (List.foldl (mergeStep nameOf) st opEs).1 = [e] := by
  induction opEs generalizing st with
  | nil => intro e he; simp [ciFilter] at he
  | cons x rest ih =>
    intro e he
    have hdef' : l ∈ (mergeStep nameOf st x).2 := mergeStep_defined_mono nameOf st x l hdef
    by_cases hx : strLower (nameOf x) = l
    · have hcons : ciFilter nameOf l (x :: rest) = x :: ciFilter nameOf l rest := by
        simp [ciFilter, hx]
      rw [hcons] at he
      rcases hrest : ciFilter nameOf l rest with _ | ⟨y, ys⟩
      · rw [hrest] at he
        simp at he
        subst he
        rw [List.foldl_cons,
          ciFilter_foldl_no_op nameOf rest (mergeStep nameOf st x) ?h1,
          ciFilter_mergeStep_eq nameOf st hx hdef]
        case h1 =>
          intro z hz hzl
          have : z ∈ ciFilter nameOf l rest := by simp [ciFilter, hz, hzl]
          rw [hrest] at this
          exact absurd this (List.not_mem_nil z)
      · have hne : ciFilter nameOf l rest ≠ [] := by rw [hrest]; simp
        have : (x :: ciFilter nameOf l rest).getLast? = (ciFilter nameOf l rest).getLast? := by
          rw [hrest]
          exact List.getLast?_cons_cons
        rw [this] at he
        rw [List.foldl_cons]
        exact ih (mergeStep nameOf st x) hdef' e he
    · have hcons : ciFilter nameOf l (x :: rest) = ciFilter nameOf l rest := by
        simp [ciFilter, hx]
      rw [hcons] at he
      rw [List.foldl_cons]
      exact ih (mergeStep nameOf st x) hdef' e he

/-- One nice path-level iteration of the header-parameter loop. -/
theorem hdrStepPath_nice {loc : List JKey} {doc : Json} {hs : List Header}
    {d : List String} {k : JKey} {x : Json}
    (hx : doc.getPath (loc ++ [k]) = some x) (hn : paramNice x = true) :
    hdrStepPath loc (hs, d) k doc =
      .ok (hs ++ (if isIn "header" x then [⟨pName x, Json.str (phValueOf x)⟩] else []),
        d ++ (if isIn "header" x then [strLower (pName x)] else [])) := by
  obtain ⟨hnn, href, hnm, hsch, hin⟩ := paramNice_elim hn
  simp only [hdrStepPath, paramSite_noref hx hnn href, eu_bind_ok, siteVal, hx]
  rcases inOkB_elim hin with hin0 | ⟨s, hins, hty⟩
  · rw [jsInLower_absent hnn hin0]
    simp only [eu_bind_ok]
    have hih : isIn "header" x = false := by unfold isIn; rw [hin0]
    simp [hih]
  · rw [jsInLower_str hnn hins]
    simp only [eu_bind_ok]
    by_cases hq : strLower s = "header"
    · rw [hq]
      have hih : isIn "header" x = true := by unfold isIn; rw [hins]; simp [hq]
      simp only [placeholderOf_nice hnn hsch (hty (Or.inr hq)), eu_bind_ok,
        paramNameStr_nice hnn hnm, eu_pure, hih, if_true]
    · have hih : isIn "header" x = false := by
        unfold isIn; rw [hins]; simp [hq]
      rw [hih]
      simp only [Bool.false_eq_true, if_false]
      split
      · rename_i heq
        exact absurd (by injection heq) hq
      · simp

/-- One nice method-level iteration of the header-parameter loop. -/
theorem hdrStepOp_nice {loc : List JKey} {doc : Json} {hs : List Header}
    {d : List String} {k : JKey} {x : Json}
    (hx : doc.getPath (loc ++ [k]) = some x) (hn : paramNice x = true) :
    hdrStepOp loc (hs, d) k doc =
      .ok (if isIn "header" x then
            mergeStep Header.name (hs, d) ⟨pName x, Json.str (phValueOf x)⟩
          else (hs, d)) := by
  obtain ⟨hnn, href, hnm, hsch, hin⟩ := paramNice_elim hn
  simp only [hdrStepOp, paramSite_noref hx hnn href, eu_bind_ok, siteVal, hx]
  rcases inOkB_elim hin with hin0 | ⟨s, hins, hty⟩
  · rw [jsInLower_absent hnn hin0]
    simp only [eu_bind_ok]
    have hih : isIn "header" x = false := by unfold isIn; rw [hin0]
    simp [hih]
  · rw [jsInLower_str hnn hins]
    simp only [eu_bind_ok]
    by_cases hq : strLower s = "header"
    · rw [hq]
      have hih : isIn "header" x = true := by unfold isIn; rw [hins]; simp [hq]
      simp only [placeholderOf_nice hnn hsch (hty (Or.inr hq)), eu_bind_ok,
        paramNameStr_nice hnn hnm, eu_pure, hih, if_true, mergeStep]
      split
      · rename_i hc
        simp [hc]
      · rename_i hc
        simp [hc]
    · have hih : isIn "header" x = false := by
        unfold isIn; rw [hins]; simp [hq]
      rw [hih]
      simp only [Bool.false_eq_true, if_false]
      split
      · rename_i heq
        exact absurd (by injection heq) hq
      · simp

/-- The pure actions of the header loops. -/
def hPureStepPath (st : List Header × List String) (x : Json) : List Header × List String :=
  (st.1 ++ (if isIn "header" x then [⟨pName x, Json.str (phValueOf x)⟩] else []),
   st.2 ++ (if isIn "header" x then [strLower (pName x)] else []))

def hPureStepOp (st : List Header × List String) (x : Json) : List Header × List String :=
  if isIn "header" x then mergeStep Header.name st ⟨pName x, Json.str (phValueOf x)⟩ else st

/-- The header entry a parameter contributes, if any. -/
def hEntryOf (p : Json) : Option Header :=
  if isIn "header" p then some ⟨pName p, Json.str (phValueOf p)⟩ else none

theorem hEntries_eq_filterMap (ps : List Json) : hEntries ps = ps.filterMap hEntryOf := rfl

theorem foldl_hPureStepPath :
    ∀ (ps : List Json) (st : List Header × List String),
      List.foldl hPureStepPath st ps =
        (st.1 ++ hEntries ps, st.2 ++ (hEntries ps).map (fun e => strLower e.name)) := by
  intro ps
  induction ps with
  | nil => intro st; simp [hEntries]
  | cons x rest ih =>
    intro st
    rw [List.foldl_cons, ih]
    unfold hPureStepPath hEntries
    by_cases hq : isIn "header" x = true
    · simp [hq, List.filterMap_cons]
    · simp only [hq, Bool.false_eq_true, if_false, List.append_nil]
      simp [List.filterMap_cons, hq]

theorem foldl_hPureStepOp (ps : List Json) (st : List Header × List String) :
    List.foldl hPureStepOp st ps =
      List.foldl (mergeStep Header.name) st (hEntries ps) := by
  rw [hEntries_eq_filterMap]
  induction ps generalizing st with
  | nil => simp
  | cons x rest ih =>
    rw [List.foldl_cons, ih, List.filterMap_cons]
    unfold hPureStepOp hEntryOf
    by_cases hq : isIn "header" x = true
    · simp [hq]
    · simp [hq]

theorem authTail_none (d : List String) : authTail ⟨none, none, none⟩ d = .ok [] := rfl

/-- The merged parameter-derived header list for the canonical document. -/
def hMerged (pps ops : List Json) : List Header × List String :=
  List.foldl (mergeStep Header.name)
    (hEntries pps, (hEntries pps).map (fun e => strLower e.name)) (hEntries ops)

theorem hdrLoopPath_mkDocT {top : List (String × Json)} {p m : String}
    {l : List Json} {opFields : List (String × Json)}
    (hm : m ≠ "parameters") (hn : ∀ x ∈ l, paramNice x = true)
    (st : List Header × List String) :
    foldSteps (fun st k => hdrStepPath [.fld "paths", .fld p, .fld "parameters"] st k
        (mkDocT top p m (some l) opFields)) st (Json.arr l).forInKeys =
      .ok (List.foldl hPureStepPath st l) := by
  apply foldSteps_arr
  intro st i x hx
  obtain ⟨s1, s2⟩ := st
  have hread : (mkDocT top p m (some l) opFields).getPath
      ([JKey.fld "paths", JKey.fld p, JKey.fld "parameters"] ++ [JKey.idx i]) = some x := by
    rw [Json.getPath_append, mkDocT_pparams_loc top p m (some l) opFields hm]
    simp only [Option.some_bind, Json.getPath_cons, Json.getK_arr_idx, hx, Json.getPath_nil]
  exact hdrStepPath_nice hread (hn x (List.get?_mem hx))

theorem hdrLoopOp_mkDocT {top : List (String × Json)} {p m : String}
    {pps : Option (List Json)} {ops : List Json}
    (hm : m ≠ "parameters") (hn : ∀ x ∈ ops, paramNice x = true)
    (st : List Header × List String) :
    foldSteps (fun st k => hdrStepOp [.fld "paths", .fld p, .fld m, .fld "parameters"] st k
        (mkDocT top p m pps [("parameters", Json.arr ops)])) st (Json.arr ops).forInKeys =
      .ok (List.foldl hPureStepOp st ops) := by
  apply foldSteps_arr
  intro st i x hx
  obtain ⟨s1, s2⟩ := st
  have hread : (mkDocT top p m pps [("parameters", Json.arr ops)]).getPath
      ([JKey.fld "paths", JKey.fld p, JKey.fld m, JKey.fld "parameters"] ++ [JKey.idx i]) =
        some x := by
    rw [Json.getPath_append, mkDocT_oparams_loc top p m pps _ hm]
    simp only [jlookup_cons, beq_self_eq_true, if_true, Option.some_bind,
      Json.getPath_cons, Json.getK_arr_idx, hx, Json.getPath_nil]
  have h := @hdrStepOp_nice _ _ s1 s2 _ _ hread (hn x (List.get?_mem hx))
  rw [h]
  unfold hPureStepOp
  by_cases hq : isIn "header" x = true <;> simp [hq]

@[simp] theorem truthyO_none : Json.truthyO none = false := rfl

theorem mkDocT_top_get (p m : String) (pps : Option (List Json))
    (opFields : List (String × Json)) (k : String) (hk : (k == "paths") = false) :
    (mkDocT [] p m pps opFields).get k = none := by
  simp [mkDocT, hk]

/-- Refinement of `getHeadersArray` on the canonical document (no
`consumes`/`produces`/`requestBody`/`security` anywhere): the headers are
exactly the two-phase merge of the `in: header` parameter entries. -/
theorem getHeadersArray_mkDocT (p m : String) (pps : Option (List Json)) (ops : List Json)
    (hm : m ≠ "parameters")
    (hpn : ∀ x ∈ pps.getD [], paramNice x = true)
    (hon : ∀ x ∈ ops, paramNice x = true) :
    getHeadersArray (mkDocT [] p m pps [("parameters", Json.arr ops)]) p m =
      .ok (hMerged (pps.getD []) ops).1 := by
  have hb1 : ("consumes" == "parameters") = false := by decide
  have hb2 : ("produces" == "parameters") = false := by decide
  have hb3 : ("requestBody" == "parameters") = false := by decide
  have hb4 : ("security" == "parameters") = false := by decide
  simp only [getHeadersArray]
  rw [jsGet_of_notnull (pNotNull_mkDocT [] p m pps _) "paths", mkDocT_paths]
  simp only [eu_bind_ok, jsGet_obj, jlookup_cons, beq_self_eq_true, if_true]
  rw [jsGet_of_notnull (pNotNull_mkPathItem pps m _) m, mkPathItem_op pps m _ hm]
  simp only [eu_bind_ok, jsGet_obj, jlookup_cons, hb1, hb2, hb3, hb4, if_false,
    Bool.false_eq_true, List.lookup_nil]
  rw [jsGet_of_notnull (pNotNull_mkDocT [] p m pps _) "consumes",
    mkDocT_top_get p m pps _ "consumes" (by decide)]
  simp only [eu_bind_ok]
  rw [jsGet_of_notnull (pNotNull_mkDocT [] p m pps _) "produces",
    mkDocT_top_get p m pps _ "produces" (by decide)]
  simp only [eu_bind_ok, truthyO_none, Bool.false_eq_true, if_false]
  rw [jsGet_of_notnull (pNotNull_mkPathItem pps m _) "parameters",
    mkPathItem_params pps m _ hm]
  rw [jsGet_of_notnull (pNotNull_mkDocT [] p m pps _) "security",
    mkDocT_top_get p m pps _ "security" (by decide)]
  simp only [eu_bind_ok, eu_pure, List.append_nil, List.nil_append]
  cases pps with
  | none =>
    simp only [Option.getD, eu_bind_ok, beq_self_eq_true, if_true]
    rw [hdrLoopOp_mkDocT hm hon ([], [])]
    simp only [eu_bind_ok, foldl_hPureStepOp, authTail_none, eu_pure, hMerged]
    simp [hEntries]
  | some l =>
    simp only [eu_bind_ok]
    rw [hdrLoopPath_mkDocT hm (by simpa using hpn) ([], [])]
    simp only [eu_bind_ok, foldl_hPureStepPath, List.nil_append, beq_self_eq_true, if_true]
    rw [hdrLoopOp_mkDocT hm hon _]
    simp only [eu_bind_ok, foldl_hPureStepOp, authTail_none, eu_pure, hMerged]
    simp

/-- Case-insensitively distinct names. -/
def ciDistinct {α : Type} (nameOf : α → String) (es : List α) : Prop :=
  es.Pairwise (fun a b => strLower (nameOf a) ≠ strLower (nameOf b))

/-- Inversion of a successful `createHar`: the descriptor's `queryString`
and `headers` fields are the builder outputs. -/
theorem createHar_inv {sampler : Sampler} {doc : Json} {p m : String}
    {values : List (String × Json)} {har : Har} {d2 : Json}
    (h : createHar sampler doc p m values = .ok (har, d2)) :
    ∃ qs doc1 hs, getQueryStrings doc p m values = .ok (qs, doc1) ∧
      getHeadersArray doc p m = .ok hs ∧
      har.queryString = qs ∧ har.headers = hs := by
  unfold createHar at h
  rcases hb : getBaseUrl doc with _ | b <;> rw [hb] at h
  · simp at h
  rcases hf : getFullPath doc p m with _ | fp <;> rw [hf] at h
  · simp at h
  rcases hh : getHeadersArray doc p m with _ | hs <;> rw [hh] at h
  · simp at h
  rcases hq : getQueryStrings doc p m values with _ | qsp <;> rw [hq] at h
  · simp at h
  rcases hpl : getPayload sampler qsp.2 p m with _ | plp <;>
    simp only [eu_bind_ok, eu_bind_error, eu_pure] at h
  · rw [hpl] at h; simp at h
  · rw [hpl] at h
    simp only [eu_bind_ok, eu_pure, Except.ok.injEq, Prod.mk.injEq] at h
    obtain ⟨hhar, _⟩ := h
    exact ⟨qsp.1, qsp.2, hs, rfl, rfl, by rw [← hhar], by rw [← hhar]⟩

/-! ## Claim C2: case-insensitive uniqueness and operation-over-path
override in the merged query and header lists -/

/-- C2 (amended, main theorem).  For a single-path document whose parameter
lists are `$ref`-free and well-formed (`paramNice`), whose path-level query
(resp. header) parameter names are case-insensitively distinct, and with no
`consumes`/`produces`/`requestBody`/`security` contributions: in any
descriptor single-operation synthesis produces, the `queryString` and the
`headers` sequences have case-insensitively unique names, and for every
name declared at both levels the surviving entry is exactly the (last)
operation-level entry of that name. -/
theorem C2_merge_ci_unique_and_override
    (sampler : Sampler) (p m : String) (pps : Option (List Json)) (ops : List Json)
    (values : List (String × Json)) (har : Har) (d2 : Json)
    (hm : m ≠ "parameters")
    (hpn : ∀ x ∈ pps.getD [], paramNice x = true)
    (hon : ∀ x ∈ ops, paramNice x = true)
    (hqd : ciDistinct QSE.name (qEntries values (pps.getD [])))
    (hhd : ciDistinct Header.name (hEntries (pps.getD [])))
    (h : createHar sampler (mkDocT [] p m pps [("parameters", Json.arr ops)]) p m values =
      .ok (har, d2)) :
    ciDistinct QSE.name har.queryString ∧
    ciDistinct Header.name har.headers ∧
    (∀ l e, l ∈ (qEntries values (pps.getD [])).map (fun x => strLower x.name) →
      (ciFilter QSE.name l (qEntries values ops)).getLast? = some e →
      ciFilter QSE.name l har.queryString = [e]) ∧
    (∀ l e, l ∈ (hEntries (pps.getD [])).map (fun x => strLower x.name) →
      (ciFilter Header.name l (hEntries ops)).getLast? = some e →
      ciFilter Header.name l har.headers = [e]) := by
  obtain ⟨qs, doc1, hs, hq, hh, hqs, hhs⟩ := createHar_inv h
  rw [getQueryStrings_mkDocT [] p m pps ops values hm hpn hon] at hq
  rw [getHeadersArray_mkDocT p m pps ops hm hpn hon] at hh
  injection hq with hq1
  injection hh with hh1
  have hqs' : har.queryString = (qsMerged values (pps.getD []) ops).1 := by
    rw [hqs]
    exact (congrArg Prod.fst hq1).symm
  have hhs' : har.headers = (hMerged (pps.getD []) ops).1 := by
    rw [hhs, ← hh1]
  have hinvq : MergeInv QSE.name
      (qEntries values (pps.getD []),
       (qEntries values (pps.getD [])).map (fun e => strLower e.name)) := by
    refine ⟨?_, hqd⟩
    intro e he
    exact List.mem_map_of_mem _ he
  have hinvh : MergeInv Header.name
      (hEntries (pps.getD []),
       (hEntries (pps.getD [])).map (fun e => strLower e.name)) := by
    refine ⟨?_, hhd⟩
    intro e he
    exact List.mem_map_of_mem _ he
  refine ⟨?_, ?_, ?_, ?_⟩
  · rw [hqs']
    exact (foldl_mergeStep_inv QSE.name _ hinvq).2
  · rw [hhs']
    exact (foldl_mergeStep_inv Header.name _ hinvh).2
  · intro l e hl hlast
    rw [hqs']
    exact ciFilter_foldl_mergeStep QSE.name _ _ hl e hlast
  · intro l e hl hlast
    rw [hhs']
    exact ciFilter_foldl_mergeStep Header.name _ _ hl e hlast

instance {α : Type} (nameOf : α → String) (es : List α) : Decidable (ciDistinct nameOf es) :=
  inferInstanceAs (Decidable (es.Pairwise _))

/-- A query parameter with a string type, used in concrete instances. -/
def paramQ (n : String) : Json :=
  Json.obj [("name", Json.str n), ("in", Json.str "query"), ("type", Json.str "string")]

/-- A header parameter with a string type, used in concrete instances. -/
def paramH (n : String) : Json :=
  Json.obj [("name", Json.str n), ("in", Json.str "header"), ("type", Json.str "string")]

/-- Document with `Foo`/`X-Tok` at path level and `foo`/`x-tok` at
operation level. -/
def cDocC2 : Json := mkDocT [] "/x" "get" (some [paramQ "Foo", paramH "X-Tok"])
  [("parameters", Json.arr [paramQ "foo", paramH "x-tok"])]

/-- The descriptor synthesized from `cDocC2`. -/
def harC2 : Har :=
  { method := "GET", url := "http://undefined/x",
    headers := [⟨"x-tok", Json.str "SOME_STRING_VALUE"⟩],
    queryString := [⟨"foo", "SOME_STRING_VALUE"⟩],
    httpVersion := "HTTP/1.1", cookies := [], headersSize := 0, bodySize := 0,
    postData := none }

/-- Witness for C2: at the `Foo`/`foo` and `X-Tok`/`x-tok` document the
operation-level entries are the only survivors, present exactly once. -/
theorem C2_merge_ci_unique_and_override_witness :
    ciDistinct QSE.name harC2.queryString ∧
    ciFilter QSE.name "foo" harC2.queryString = [⟨"foo", "SOME_STRING_VALUE"⟩] ∧
    ciFilter Header.name "x-tok" harC2.headers = [⟨"x-tok", Json.str "SOME_STRING_VALUE"⟩] := by
  have c := C2_merge_ci_unique_and_override (fun _ _ => .error ()) "/x" "get"
    (some [paramQ "Foo", paramH "X-Tok"]) [paramQ "foo", paramH "x-tok"] [] harC2 cDocC2
    (by decide) (by decide) (by decide) (by decide) (by decide) rfl
  exact ⟨c.1, c.2.2.1 "foo" ⟨"foo", "SOME_STRING_VALUE"⟩ (by decide) rfl,
    c.2.2.2 "x-tok" ⟨"x-tok", Json.str "SOME_STRING_VALUE"⟩ (by decide) rfl⟩

/-- Document whose operation declares `consumes: ["a", "b"]`. -/
def cDocC2x : Json := Json.obj [("paths", Json.obj [("/x", Json.obj [("get",
  Json.obj [("consumes", Json.arr [Json.str "a", Json.str "b"])])])])]

/-- Counterexample to C2 as stated: a two-entry `consumes` produces two
`accept` headers, so header names are NOT case-insensitively unique in the
synthesized descriptor. -/
theorem C2_counterexample :
    (createHar (fun _ _ => .error ()) cDocC2x "/x" "get" []).map
        (fun r => r.1.headers.map Header.name) = .ok ["accept", "accept"] ∧
    ¬ (["accept", "accept"] : List String).Pairwise (fun a b => strLower a ≠ strLower b) := by
  exact ⟨rfl, by decide⟩

/-! ## Claim C4: query value resolution precedence -/

/-- C4: for an `in: query` parameter, the emitted value is `qValueOf`, which
resolves, highest first: the caller override under the exact name (coerced
to string), else `default`, else `schema.example`, else the placeholder
`SOME_<UPPERCASED_TYPE>_VALUE` with the type from `param.type` or
`param.schema.type`. -/
theorem C4_query_value_precedence
    (sampler : Sampler) (p m : String) (x : Json) (values : List (String × Json))
    (har : Har) (d2 : Json)
    (hm : m ≠ "parameters") (hx : paramNice x = true) (hq : isIn "query" x = true)
    (h : createHar sampler (mkDocT [] p m none [("parameters", Json.arr [x])]) p m values =
      .ok (har, d2)) :
    har.queryString = [⟨pName x, qValueOf values x⟩] ∧
    (∀ ov, values.lookup (Json.jsToStringO (x.get "name")) = some ov →
      qValueOf values x = Json.jsToString ov) ∧
    (values.lookup (Json.jsToStringO (x.get "name")) = none →
      ∀ dv, x.get "default" = some dv → qValueOf values x = Json.jsToString dv) ∧
    (values.lookup (Json.jsToStringO (x.get "name")) = none → x.get "default" = none →
      ∀ ex, (x.get "schema").bind (fun s => s.get "example") = some ex →
        qValueOf values x = Json.jsToString ex) ∧
    (values.lookup (Json.jsToStringO (x.get "name")) = none → x.get "default" = none →
      (x.get "schema").bind (fun s => s.get "example") = none →
      qValueOf values x = "SOME_" ++ strUpper (typeStrOf x) ++ "_VALUE") := by
  obtain ⟨qs, doc1, hs, hqe, hhe, hqs, hhs⟩ := createHar_inv h
  rw [getQueryStrings_mkDocT [] p m none [x] values hm (by simp) (by simpa using hx)] at hqe
  injection hqe with hq1
  have hqq : (qsMerged values (Option.getD none []) [x]).1 = qs := congrArg Prod.fst hq1
  have hq2 : har.queryString = [⟨pName x, qValueOf values x⟩] := by
    rw [hqs, ← hqq]
    simp only [qsMerged, qEntries, List.filterMap_cons, List.filterMap_nil, Option.getD,
      hq, if_true]
    unfold mergeStep
    simp [List.contains]
  refine ⟨hq2, ?_, ?_, ?_, ?_⟩
  · intro ov hov
    unfold qValueOf
    rw [hov]
  · intro hov dv hdv
    unfold qValueOf
    rw [hov, hdv]
  · intro hov hdv ex hex
    unfold qValueOf
    rw [hov, hdv, hex]
  · intro hov hdv hex
    unfold qValueOf
    rw [hov, hdv, hex]
    rfl

/-- A query parameter with a `default`, used for the C4 witness. -/
def paramC4 : Json :=
  Json.obj [("name", Json.str "q"), ("in", Json.str "query"), ("type", Json.str "string"),
    ("default", Json.num 5)]

/-- Witness for C4: with both an override and a `default` present, the
override wins (and is string-coerced). -/
theorem C4_query_value_precedence_witness :
    ({ method := "GET", url := "http://undefined/x", headers := [],
       queryString := [⟨"q", "o"⟩], httpVersion := "HTTP/1.1", cookies := [],
       headersSize := 0, bodySize := 0, postData := none } : Har).queryString =
      [⟨"q", qValueOf [("q", Json.str "o")] paramC4⟩] ∧
    qValueOf [("q", Json.str "o")] paramC4 = "o" := by
  have c := C4_query_value_precedence (fun _ _ => .error ()) "/x" "get" paramC4
    [("q", Json.str "o")]
    { method := "GET", url := "http://undefined/x", headers := [],
      queryString := [⟨"q", "o"⟩], httpVersion := "HTTP/1.1", cookies := [],
      headersSize := 0, bodySize := 0, postData := none }
    (mkDocT [] "/x" "get" none [("parameters", Json.arr [paramC4])])
    (by decide) (by decide) (by decide) rfl
  exact ⟨by rw [c.1]; rfl, c.2.1 (Json.str "o") rfl⟩

/-! ## Claim C10: a query/header parameter without `type` and without a
typed schema makes synthesis throw, even when an override is supplied -/

/-- Neither `param.type` (truthy) nor a schema `type` is available (and no
`$ref` would be resolved first). -/
def typeGone (p : Json) : Bool :=
  (match p.get "type" with | none => true | some tv => ! tv.truthy) &&
  (match p.get "schema" with
   | none => true
   | some .null => false
   | some s => (s.get "$ref").isNone && (s.get "type").isNone)

/-- An `in: query` parameter whose placeholder computation throws. -/
def badQueryParam (p : Json) : Bool :=
  pNotNull p && (p.get "$ref").isNone &&
  (match p.get "in" with | some (.str s) => strLower s == "query" | _ => false) &&
  typeGone p

/-- An `in: header` parameter whose placeholder computation throws. -/
def badHeaderParam (p : Json) : Bool :=
  pNotNull p && (p.get "$ref").isNone &&
  (match p.get "in" with | some (.str s) => strLower s == "header" | _ => false) &&
  typeGone p

theorem typeGone_schemaOkB {x : Json} (h : typeGone x = true) : schemaOkB x = true := by
  unfold typeGone at h
  unfold schemaOkB
  simp only [Bool.and_eq_true] at h
  cases hsch : x.get "schema" with
  | none => rfl
  | some s =>
    have := h.2
    rw [hsch] at this
    cases s
    case null => simp at this
    case obj fl =>
      simp only [Bool.and_eq_true] at this
      exact this.1
    all_goals rfl

/-- The placeholder computation throws when the type is gone. -/
theorem placeholderOf_bad {x : Json} (hnn : pNotNull x = true) (h : typeGone x = true) :
    placeholderOf (some x) = .error () := by
  unfold typeGone at h
  simp only [Bool.and_eq_true] at h
  obtain ⟨ht, hsch⟩ := h
  simp only [placeholderOf, jsGet_of_notnull hnn, eu_bind_ok]
  have hbranch : Json.truthyO (x.get "type") = false := by
    cases hty : x.get "type" with
    | none => rfl
    | some tv =>
      rw [hty] at ht
      simpa [Json.truthyO] using ht
  rw [hbranch]
  simp only [Bool.false_eq_true, if_false]
  cases hs : x.get "schema" with
  | none => simp [hs]
  | some s =>
    rw [hs] at hsch
    cases s with
    | null => simp at hsch
    | str v =>
      simp only [hs, jsGet_of_notnull (show pNotNull (Json.str v) = true from rfl), eu_bind_ok]
      rfl
    | bool b =>
      simp only [hs, jsGet_of_notnull (show pNotNull (Json.bool b) = true from rfl), eu_bind_ok]
      rfl
    | num n =>
      simp only [hs, jsGet_of_notnull (show pNotNull (Json.num n) = true from rfl), eu_bind_ok]
      rfl
    | arr xs =>
      simp only [Bool.and_eq_true, Option.isNone_iff_eq_none] at hsch
      simp only [hs, jsGet_of_notnull (show pNotNull (Json.arr xs) = true from rfl),
        eu_bind_ok, hsch.2]
      rfl
    | obj fl =>
      simp only [Bool.and_eq_true, Option.isNone_iff_eq_none] at hsch
      simp only [hs, jsGet_of_notnull (show pNotNull (Json.obj fl) = true from rfl),
        eu_bind_ok, hsch.2]
      rfl

/-- A bad query parameter makes the method-level query step throw (before
the override is even consulted). -/
theorem qsStepOp_bad {values : List (String × Json)} {loc : List JKey}
    {doc : Json} {qs : List QSE} {d : List String} {k : JKey} {x : Json}
    (hx : doc.getPath (loc ++ [k]) = some x) (hb : badQueryParam x = true) :
    qsStepOp values loc (doc, qs, d) k = .error () := by
  unfold badQueryParam at hb
  simp only [Bool.and_eq_true] at hb
  obtain ⟨⟨⟨hnn, href⟩, hin⟩, hty⟩ := hb
  have hsok : schemaOkB x = true := typeGone_schemaOkB hty
  simp only [qsStepOp, paramSite_noref hx hnn href, eu_bind_ok,
    resolveSchemaAt_nice hx hnn hsok, siteVal, hx]
  rcases hins : x.get "in" with _ | v
  · rw [hins] at hin; simp at hin
  rcases v with _ | _ | _ | s | _ | _ <;> rw [hins] at hin <;> try simp at hin
  rw [jsInLower_str hnn hins]
  have hq : strLower s = "query" := by simpa using hin
  rw [hq]
  simp only [eu_bind_ok]
  simp only [queryValue, placeholderOf_bad hnn hty, eu_bind_error]

/-- A bad header parameter makes the method-level header step throw. -/
theorem hdrStepOp_bad {loc : List JKey} {doc : Json} {hs : List Header}
    {d : List String} {k : JKey} {x : Json}
    (hx : doc.getPath (loc ++ [k]) = some x) (hb : badHeaderParam x = true) :
    hdrStepOp loc (hs, d) k doc = .error () := by
  unfold badHeaderParam at hb
  simp only [Bool.and_eq_true] at hb
  obtain ⟨⟨⟨hnn, href⟩, hin⟩, hty⟩ := hb
  simp only [hdrStepOp, paramSite_noref hx hnn href, eu_bind_ok, siteVal, hx]
  rcases hins : x.get "in" with _ | v
  · rw [hins] at hin; simp at hin
  rcases v with _ | _ | _ | s | _ | _ <;> rw [hins] at hin <;> try simp at hin
  rw [jsInLower_str hnn hins]
  have hq : strLower s = "header" := by simpa using hin
  rw [hq]
  simp only [eu_bind_ok, placeholderOf_bad hnn hty, eu_bind_error]

/-- A loop errors once it reaches an always-throwing index, provided the
earlier reachable steps either throw or preserve the invariant. -/
theorem foldSteps_idx_error {σ : Type} {step : σ → JKey → Except Unit σ}
    {ps : List Json} {P : σ → Prop} {j : Nat}
    (hstep : ∀ st i x, P st → i < j → ps.get? i = some x →
      step st (.idx i) = .error () ∨ ∃ st', step st (.idx i) = .ok st' ∧ P st')
    (hbad : ∀ st, P st → step st (.idx j) = .error ())
    (hj : j < ps.length) :
    ∀ (l : List Json) (i : Nat), ps.drop i = l → i ≤ j → ∀ st : σ, P st →
      foldSteps step st ((List.range' i l.length).map JKey.idx) = .error () := by
  intro l
  induction l with
  | nil =>
    intro i hdrop hij st _
    have : ps.length ≤ i := by simpa using List.drop_eq_nil_iff.mp hdrop
    exact absurd (Nat.lt_of_le_of_lt (Nat.le_trans this hij) hj) (Nat.lt_irrefl _)
  | cons x rest ih =>
    intro i hdrop hij st hP
    rw [show List.range' i (x :: rest).length = i :: List.range' (i + 1) rest.length from rfl,
      List.map_cons]
    by_cases hieq : i = j
    · subst hieq
      exact foldSteps_cons_error _ (hbad st hP)
    · have hilt : i < j := Nat.lt_of_le_of_ne hij hieq
      have hx : ps.get? i = some x := get?_of_drop_cons hdrop
      rcases hstep st i x hP hilt hx with he | ⟨st', hok, hP'⟩
      · exact foldSteps_cons_error _ he
      · rw [foldSteps_cons_ok _ hok]
        exact ih (i + 1) (drop_succ_of_drop_cons hdrop) (Nat.succ_le_of_lt hilt) st' hP'

/-- C10: with a query (resp. header) parameter carrying neither a truthy
`type` nor a schema `type`, single-operation synthesis throws while
building the query strings (resp. headers) — the placeholder is computed
before the caller override is consulted, so this happens for every
override mapping. -/
theorem C10_missing_type_throws (p m : String) (values : List (String × Json))
    (pps : Option (List Json)) (pre post : List Json) (bad : Json)
    (hm : m ≠ "parameters")
    (hpn : ∀ x ∈ pps.getD [], paramNice x = true)
    (hpre : ∀ x ∈ pre, paramNice x = true) :
    (badQueryParam bad = true →
      getQueryStrings (mkDocT [] p m pps [("parameters", Json.arr (pre ++ bad :: post))])
        p m values = .error ()) ∧
    (badHeaderParam bad = true →
      getHeadersArray (mkDocT [] p m pps [("parameters", Json.arr (pre ++ bad :: post))])
        p m = .error ()) := by
  set ops := pre ++ bad :: post with hops
  have hj : ops.get? pre.length = some bad := by
    rw [hops, List.get?_append_right (Nat.le_refl _)]
    simp
  have hjlen : pre.length < ops.length := by
    rw [hops]
    simp
  have hpreget : ∀ i, i < pre.length → ops.get? i = pre.get? i := by
    intro i hi
    rw [hops]
    exact List.get?_append hi
  have hreadOp : ∀ i x, ops.get? i = some x →
      (mkDocT [] p m pps [("parameters", Json.arr ops)]).getPath
        ([JKey.fld "paths", JKey.fld p, JKey.fld m, JKey.fld "parameters"] ++
          [JKey.idx i]) = some x := by
    intro i x hx
    rw [Json.getPath_append, mkDocT_oparams_loc [] p m pps _ hm]
    simp only [jlookup_cons, beq_self_eq_true, if_true, Option.some_bind,
      Json.getPath_cons, Json.getK_arr_idx, hx, Json.getPath_nil]
  constructor
  · intro hbad
    have hloopErr : ∀ st : Json × List QSE × List String,
        st.1 = mkDocT [] p m pps [("parameters", Json.arr ops)] →
        foldSteps
          (qsStepOp values [JKey.fld "paths", JKey.fld p, JKey.fld m, JKey.fld "parameters"])
          st (Json.arr ops).forInKeys = .error () := by
      intro st hP
      rw [Json.forInKeys_arr, List.range_eq_range']
      refine foldSteps_idx_error
        (P := fun st => st.1 = mkDocT [] p m pps [("parameters", Json.arr ops)])
        ?_ ?_ hjlen ops 0 rfl (Nat.zero_le _) st hP
      · intro st i x hPs hij hx
        obtain ⟨s1, s2, s3⟩ := st
        simp only at hPs
        subst hPs
        right
        have hx' : pre.get? i = some x := (hpreget i hij) ▸ hx
        refine ⟨_, @qsStepOp_nice _ _ _ s2 s3 _ _ (hreadOp i x hx)
          (hpre x (List.get?_mem hx')), ?_⟩
        by_cases hq : isIn "query" x = true <;> simp [hq]
      · intro st hPs
        obtain ⟨s1, s2, s3⟩ := st
        simp only at hPs
        subst hPs
        exact qsStepOp_bad (hreadOp pre.length bad hj) hbad
    have hst2walk : ∀ st1 : Json × List QSE × List String,
        st1 = (mkDocT [] p m pps [("parameters", Json.arr ops)], st1.2.1, st1.2.2) →
        (do
          let pathsV1 ← jsGet (some st1.1) "paths"
          let pathItem1 ← jsGet pathsV1 p
          let opV ← jsGet pathItem1 m
          let st2 ← (match ← jsGet opV "parameters" with
            | none => pure (st1.1, st1.2.1, st1.2.2)
            | some pv =>
                foldSteps (qsStepOp values
                  [JKey.fld "paths", JKey.fld p, JKey.fld m, JKey.fld "parameters"])
                  (st1.1, st1.2.1, st1.2.2) pv.forInKeys)
          pure (st2.2.1, st2.1) : Except Unit (List QSE × Json)) = .error () := by
      intro st1 hst
      rw [hst]
      simp only
      rw [jsGet_of_notnull (pNotNull_mkDocT [] p m pps _) "paths", mkDocT_paths]
      simp only [eu_bind_ok, jsGet_obj, jlookup_cons, beq_self_eq_true, if_true]
      rw [jsGet_of_notnull (pNotNull_mkPathItem pps m _) m, mkPathItem_op pps m _ hm]
      simp only [eu_bind_ok, jsGet_obj, jlookup_cons, beq_self_eq_true, if_true]
      rw [hloopErr _ rfl]
      rfl
    simp only [getQueryStrings]
    rw [jsGet_of_notnull (pNotNull_mkDocT [] p m pps _) "paths", mkDocT_paths]
    simp only [eu_bind_ok, jsGet_obj, jlookup_cons, beq_self_eq_true, if_true]
    rw [jsGet_of_notnull (pNotNull_mkPathItem pps m _) "parameters",
      mkPathItem_params pps m _ hm]
    cases pps with
    | none =>
      simp only [eu_bind_ok]
      exact hst2walk (mkDocT [] p m none [("parameters", Json.arr ops)], [], []) rfl
    | some l =>
      simp only [eu_bind_ok]
      rw [qsLoopPath_mkDocT hm (by simpa using hpn) _ rfl]
      simp only [eu_bind_ok, foldl_qsPureStepPath]
      exact hst2walk (mkDocT [] p m (some l) [("parameters", Json.arr ops)],
        [] ++ qEntries values l, [] ++ (qEntries values l).map (fun e => strLower e.name)) rfl
  · intro hbad
    have hloopErr : ∀ st : List Header × List String, foldSteps
        (fun st k => hdrStepOp [JKey.fld "paths", JKey.fld p, JKey.fld m, JKey.fld "parameters"]
          st k (mkDocT [] p m pps [("parameters", Json.arr ops)])) st
          (Json.arr ops).forInKeys = .error () := by
      intro st
      rw [Json.forInKeys_arr, List.range_eq_range']
      refine foldSteps_idx_error (P := fun _ => True) ?_ ?_ hjlen ops 0 rfl
        (Nat.zero_le _) st trivial
      · intro st i x _ hij hx
        obtain ⟨s1, s2⟩ := st
        right
        have hx' : pre.get? i = some x := (hpreget i hij) ▸ hx
        exact ⟨_, @hdrStepOp_nice _ _ s1 s2 _ _ (hreadOp i x hx)
          (hpre x (List.get?_mem hx')), trivial⟩
      · intro st _
        obtain ⟨s1, s2⟩ := st
        exact hdrStepOp_bad (hreadOp pre.length bad hj) hbad
    have hb1 : ("consumes" == "parameters") = false := by decide
    have hb2 : ("produces" == "parameters") = false := by decide
    have hb3 : ("requestBody" == "parameters") = false := by decide
    simp only [getHeadersArray]
    rw [jsGet_of_notnull (pNotNull_mkDocT [] p m pps _) "paths", mkDocT_paths]
    simp only [eu_bind_ok, jsGet_obj, jlookup_cons, beq_self_eq_true, if_true]
    rw [jsGet_of_notnull (pNotNull_mkPathItem pps m _) m, mkPathItem_op pps m _ hm]
    simp only [eu_bind_ok, jsGet_obj, jlookup_cons, hb1, hb2, hb3, if_false,
      Bool.false_eq_true, List.lookup_nil]
    rw [jsGet_of_notnull (pNotNull_mkDocT [] p m pps _) "consumes",
      mkDocT_top_get p m pps _ "consumes" (by decide)]
    simp only [eu_bind_ok]
    rw [jsGet_of_notnull (pNotNull_mkDocT [] p m pps _) "produces",
      mkDocT_top_get p m pps _ "produces" (by decide)]
    simp only [eu_bind_ok, truthyO_none, Bool.false_eq_true, if_false]
    rw [jsGet_of_notnull (pNotNull_mkPathItem pps m _) "parameters",
      mkPathItem_params pps m _ hm]
    simp only [eu_bind_ok, eu_pure, List.append_nil, List.nil_append]
    cases pps with
    | none =>
      simp only [eu_bind_ok, beq_self_eq_true, if_true]
      rw [hloopErr ([], [])]
      rfl
    | some l =>
      simp only [eu_bind_ok]
      rw [hdrLoopPath_mkDocT hm (by simpa using hpn) ([], [])]
      simp only [eu_bind_ok, foldl_hPureStepPath, List.nil_append, beq_self_eq_true, if_true]
      rw [hloopErr _]
      rfl

/-- Witness for C10: a typeless query parameter throws even though the
caller supplies an override for it, and a typeless header parameter throws
as well. -/
theorem C10_missing_type_throws_witness :
    getQueryStrings (mkDocT [] "/x" "get" none
        [("parameters", Json.arr [Json.obj [("name", Json.str "q"), ("in", Json.str "query")]])])
      "/x" "get" [("q", Json.str "override")] = .error () ∧
    getHeadersArray (mkDocT [] "/x" "get" none
        [("parameters", Json.arr [Json.obj [("name", Json.str "h"), ("in", Json.str "header")]])])
      "/x" "get" = .error () := by
  exact ⟨(C10_missing_type_throws "/x" "get" [("q", Json.str "override")] none [] []
      (Json.obj [("name", Json.str "q"), ("in", Json.str "query")])
      (by decide) (by decide) (by decide)).1 (by decide),
    (C10_missing_type_throws "/x" "get" [] none [] []
      (Json.obj [("name", Json.str "h"), ("in", Json.str "header")])
      (by decide) (by decide) (by decide)).2 (by decide)⟩

/-! ## Claim C1: path rendering and which parameter list it uses -/

/-- Modelled from the amended claim: the `in: path` parameters of the
chosen list, as (stringified name, optional stringified example) pairs. -/
def pathParams (ps : List Json) : List (String × Option String) :=
  ps.filterMap (fun p =>
    if isIn "path" p then
      some (Json.jsToStringO (p.get "name"), (p.get "example").map Json.jsToString)
    else none)

/-- Modelled from the amended claim: substitute each parameter's example
for the first occurrence of its `{name}` placeholder; parameters without an
example leave the template unchanged. -/
def renderPath (params : List (String × Option String)) (template : String) : String :=
  params.foldl (fun t pr =>
    match pr.2 with
    | some ex => replaceFirst t ("\x7b" ++ pr.1 ++ "\x7d") ex
    | none => t) template

/-- A parameter the path renderer can process: not `null`, no `$ref`, and a
string (or absent) `in`. -/
def fpNice (p : Json) : Bool :=
  pNotNull p && (p.get "$ref").isNone &&
  (match p.get "in" with
   | none => true
   | some (.str _) => true
   | some _ => false)

/-- The pure action of one `getFullPath` iteration. -/
def fpPureStep (fp : String) (x : Json) : String :=
  if isIn "path" x then
    match x.get "example" with
    | some ex => replaceFirst fp ("\x7b" ++ Json.jsToStringO (x.get "name") ++ "\x7d")
        (Json.jsToString ex)
    | none => fp
  else fp

theorem fpStep_nice {doc : Json} {l : List Json} {fp : String} {i : Nat} {x : Json}
    (hx : l.get? i = some x) (hn : fpNice x = true) :
    fpStep doc (Json.arr l) fp (.idx i) = .ok (fpPureStep fp x) := by
  unfold fpNice at hn
  simp only [Bool.and_eq_true] at hn
  obtain ⟨⟨hnn, href⟩, hin⟩ := hn
  have hp0 : (Json.arr l).getK (.idx i) = some x := by simpa using hx
  simp only [fpStep, hp0, jsGet_of_notnull hnn, Option.isNone_iff_eq_none.mp href,
    eu_bind_ok, eu_pure]
  cases hins : x.get "in" with
  | none =>
    rw [jsInLower_absent hnn hins]
    have : isIn "path" x = false := by unfold isIn; rw [hins]
    simp [fpPureStep, this]
  | some v =>
    rw [hins] at hin
    cases v with
    | str s =>
      rw [jsInLower_str hnn hins]
      simp only [eu_bind_ok]
      by_cases hq : strLower s = "path"
      · rw [hq]
        have hip : isIn "path" x = true := by unfold isIn; rw [hins]; simp [hq]
        simp only [fpPureStep, hip, if_true]
        cases hex : x.get "example" with
        | none => simp [hex, jsGet_of_notnull hnn]
        | some ex =>
          simp [hex, jsGet_of_notnull hnn]
      · have hip : isIn "path" x = false := by unfold isIn; rw [hins]; simp [hq]
        simp only [fpPureStep, hip, Bool.false_eq_true, if_false]
        split
        · rename_i heq
          exact absurd (by injection heq) hq
        · simp
    | null => simp at hin
    | bool b => simp at hin
    | num n => simp at hin
    | arr xs => simp at hin
    | obj fl => simp at hin

/-- C1 (amended): the path renderer uses the path-level parameter list as a
whole whenever the path item defines one (even an empty one) — the
operation-level list is used only when the path item defines none — and
substitutes each `in: path` parameter's stringified `example` for the first
occurrence of its `{name}` placeholder, leaving parameters without an
example unresolved. -/
theorem C1_path_render (p m : String) (pps : Option (List Json)) (ops : List Json)
    (hm : m ≠ "parameters")
    (hn : ∀ x ∈ (match pps with | some l => l | none => ops), fpNice x = true) :
    getFullPath (mkDocT [] p m pps [("parameters", Json.arr ops)]) p m =
      .ok (renderPath (pathParams (match pps with | some l => l | none => ops)) p) := by
  have hloop : ∀ (l : List Json), (∀ x ∈ l, fpNice x = true) → ∀ (t : String),
      foldSteps (fpStep (mkDocT [] p m pps [("parameters", Json.arr ops)]) (Json.arr l)) t
        (Json.arr l).forInKeys = .ok (renderPath (pathParams l) t) := by
    intro l hl t
    have := @foldSteps_arr String
      (fpStep (mkDocT [] p m pps [("parameters", Json.arr ops)]) (Json.arr l)) l fpPureStep
      (fun st i x hx => fpStep_nice hx (hl x (List.get?_mem hx))) t
    rw [this]
    congr 1
    have key : ∀ (l : List Json) (t : String),
        List.foldl fpPureStep t l = renderPath (pathParams l) t := by
      intro l
      induction l with
      | nil => intro t; rfl
      | cons x rest ih =>
        intro t
        by_cases hq : isIn "path" x = true
        · cases hex : x.get "example" with
          | none =>
            have h1 : pathParams (x :: rest) =
                (Json.jsToStringO (x.get "name"), none) :: pathParams rest := by
              unfold pathParams
              simp [List.filterMap_cons, hq, hex]
            have h2 : fpPureStep t x = t := by
              unfold fpPureStep
              simp [hq, hex]
            rw [List.foldl_cons, h2, ih, h1]
            rfl
          | some ex =>
            have h1 : pathParams (x :: rest) =
                (Json.jsToStringO (x.get "name"), some (Json.jsToString ex)) ::
                  pathParams rest := by
              unfold pathParams
              simp [List.filterMap_cons, hq, hex]
            have h2 : fpPureStep t x =
                replaceFirst t ("\x7b" ++ Json.jsToStringO (x.get "name") ++ "\x7d")
                  (Json.jsToString ex) := by
              unfold fpPureStep
              simp [hq, hex]
            rw [List.foldl_cons, h2, ih, h1]
            rfl
        · have h1 : pathParams (x :: rest) = pathParams rest := by
            unfold pathParams
            simp [List.filterMap_cons, hq]
          have h2 : fpPureStep t x = t := by
            unfold fpPureStep
            simp [hq]
          rw [List.foldl_cons, h2, ih, h1]
    exact key l t
  simp only [getFullPath]
  rw [jsGet_of_notnull (pNotNull_mkDocT [] p m pps _) "paths", mkDocT_paths]
  simp only [eu_bind_ok, jsGet_obj, jlookup_cons, beq_self_eq_true, if_true]
  rw [jsGet_of_notnull (pNotNull_mkPathItem pps m _) "parameters",
    mkPathItem_params pps m _ hm]
  cases pps with
  | some l =>
    simp only [eu_bind_ok, Json.truthyO, Json.truthy, if_true]
    exact hloop l hn p
  | none =>
    simp only [eu_bind_ok, truthyO_none, Bool.false_eq_true, if_false]
    rw [jsGet_of_notnull (pNotNull_mkPathItem none m _) m, mkPathItem_op none m _ hm]
    simp only [eu_bind_ok, jsGet_obj, jlookup_cons, beq_self_eq_true, if_true]
    exact hloop ops hn p

/-- A `\x7bid\x7d` path parameter with example `"P"`, declared at path level. -/
def cParamP : Json :=
  Json.obj [("name", .str "id"), ("in", .str "path"), ("example", .str "P")]

/-- The same parameter declared at operation level with example `"O"`. -/
def cParamO : Json :=
  Json.obj [("name", .str "id"), ("in", .str "path"), ("example", .str "O")]

/-- A document whose path item declares `id` with example `"P"` and whose
`get` operation declares `id` with example `"O"`. -/
def cDocC1 : Json :=
  mkDocT [] "/pets/\x7bid\x7d" "get" (some [cParamP])
    [("parameters", Json.arr [cParamO])]

/-- C1 counterexample: when both levels declare parameters, `getFullPath`
uses the path-level list (`paths[path].parameters ||
paths[path][method].parameters`), so the path-level example `"P"` is
substituted and the operation-level example `"O"` is ignored — the claim
says operation-level parameters take precedence as a whole. -/
theorem C1_counterexample :
    getFullPath cDocC1 "/pets/\x7bid\x7d" "get" = Except.ok "/pets/P" ∧
    getFullPath cDocC1 "/pets/\x7bid\x7d" "get" ≠ Except.ok "/pets/O" := by
  have h : getFullPath cDocC1 "/pets/\x7bid\x7d" "get" = Except.ok "/pets/P" := by rfl
  exact ⟨h, by rw [h]; simp⟩

/-- C1 witness: the spec's example — a path-level `id` parameter with numeric
example `42` renders `/pets/\x7bid\x7d` to `/pets/42`. -/
theorem C1_path_render_witness :
    getFullPath (mkDocT [] "/pets/\x7bid\x7d" "get"
        (some [Json.obj [("name", .str "id"), ("in", .str "path"), ("example", .num 42)]])
        [("parameters", Json.arr [])]) "/pets/\x7bid\x7d" "get" =
      Except.ok "/pets/42" := by
  have h := C1_path_render "/pets/\x7bid\x7d" "get"
    (some [Json.obj [("name", .str "id"), ("in", .str "path"), ("example", .num 42)]])
    [] (by decide)
    (by intro x hx
        simp only [List.mem_singleton] at hx
        subst hx
        rfl)
  rw [h]
  rfl

/-- A document whose `get /pets` operation declares
`security: [\x7bbasicAuth: []\x7d]` with matching
`securityDefinitions.basicAuth.type = "basic"` and no header parameters. -/
def docC3 : Json :=
  mkDocT [("securityDefinitions",
      Json.obj [("basicAuth", Json.obj [("type", Json.str "basic")])])]
    "/pets" "get" none
    [("security", Json.arr [Json.obj [("basicAuth", Json.arr [])]])]

/-- When the Basic branch's boolean test is false, the first condition of
the chain fails as a proposition. -/
theorem basicBranchFalse {b : Option String} {d : List String}
    (hb : (strOTruthy b && !(d.contains "authorization")) = false) :
    ¬ (strOTruthy b = true ∧ ¬ d.contains "authorization" = true) := by
  intro hc
  rw [hc.1, Bool.true_and] at hb
  have hcc : d.contains "authorization" = true := by
    cases hcc2 : d.contains "authorization"
    · rw [hcc2] at hb
      cases hb
    · rfl
  exact hc.2 hcc

/-- C3: the final authentication chain adds at most one header, in the
fixed order Basic, then API-key, then Bearer, each candidate guarded by
the declared-header list; and on the claim's scenario (`security:
[\x7bbasicAuth: []\x7d]`, scheme type `basic`, no declared Authorization header)
the output headers are exactly one Basic Authorization entry. -/
theorem C3_auth_order :
    (∀ (s : AuthSt) (d : List String) (hs : List Header),
        authTail s d = .ok hs → hs.length ≤ 1) ∧
    (∀ (n : String) (a : Option Json) (o : Option String) (d : List String),
        (n == "") = false → d.contains "authorization" = false →
        authTail ⟨some n, a, o⟩ d =
          .ok [⟨"Authorization", Json.str ("Basic " ++ "REPLACE_BASIC_AUTH")⟩]) ∧
    (∀ (b o : Option String) (j : Json) (nm : String) (d : List String),
        (strOTruthy b && !(d.contains "authorization")) = false →
        j.get "name" = some (Json.str nm) →
        d.contains (strLower nm) = false →
        authTail ⟨b, some j, o⟩ d = .ok [⟨nm, Json.str "REPLACE_KEY_VALUE"⟩]) ∧
    (∀ (b : Option String) (n : String) (d : List String),
        (strOTruthy b && !(d.contains "authorization")) = false →
        (n == "") = false → d.contains "authorization" = false →
        authTail ⟨b, none, some n⟩ d =
          .ok [⟨"Authorization", Json.str ("Bearer " ++ "REPLACE_BEARER_TOKEN")⟩]) ∧
    getHeadersArray docC3 "/pets" "get" =
      .ok [⟨"Authorization", Json.str ("Basic " ++ "REPLACE_BASIC_AUTH")⟩] := by
  refine ⟨?_, ?_, ?_, ?_, ?_⟩
  · intro s d hs h
    unfold authTail at h
    split at h
    · simp only [eu_pure] at h
      cases h
      simp
    · split at h
      · rename_i j hj
        cases hx : expectStr (j.get "name") with
        | error e =>
          rw [hx] at h
          simp only [eu_bind_error] at h
          cases h
        | ok nm =>
          rw [hx] at h
          simp only [eu_bind_ok] at h
          split at h
          · simp only [eu_pure] at h
            cases h
            simp
          · split at h
            · simp only [eu_pure] at h
              cases h
              simp
            · simp only [eu_pure] at h
              cases h
              simp
      · split at h
        · simp only [eu_pure] at h
          cases h
          simp
        · simp only [eu_pure] at h
          cases h
          simp
  · intro n a o d hb hd
    unfold authTail
    rw [if_pos ⟨by simp [strOTruthy, hb], by rw [hd]; decide⟩]
    rfl
  · intro b o j nm d hb hnm hd
    unfold authTail
    rw [if_neg (basicBranchFalse hb)]
    dsimp only
    rw [hnm]
    simp only [expectStr, eu_bind_ok]
    rw [if_pos (by rw [hd]; decide)]
    rfl
  · intro b n d hb hn hd
    unfold authTail
    rw [if_neg (basicBranchFalse hb)]
    dsimp only
    rw [if_pos ⟨by simp [strOTruthy, hn], by rw [hd]; decide⟩]
    rfl
  · rfl

/-- C3 witness: with all three candidates present Basic wins; with Basic
absent the API-key header is added; with both absent Bearer is added. -/
theorem C3_auth_order_witness :
    authTail ⟨some "basicAuth", some (Json.obj [("name", Json.str "X-API-Key")]),
        some "oauth2"⟩ [] =
      .ok [⟨"Authorization", Json.str ("Basic " ++ "REPLACE_BASIC_AUTH")⟩] ∧
    authTail ⟨none, some (Json.obj [("name", Json.str "X-API-Key")]), some "oauth2"⟩ [] =
      .ok [⟨"X-API-Key", Json.str "REPLACE_KEY_VALUE"⟩] ∧
    authTail ⟨none, none, some "petstore_auth"⟩ [] =
      .ok [⟨"Authorization", Json.str ("Bearer " ++ "REPLACE_BEARER_TOKEN")⟩] := by
  refine ⟨?_, ?_, ?_⟩
  · exact C3_auth_order.2.1 "basicAuth"
      (some (Json.obj [("name", Json.str "X-API-Key")])) (some "oauth2") []
      (by decide) (by decide)
  · exact C3_auth_order.2.2.1 none (some "oauth2")
      (Json.obj [("name", Json.str "X-API-Key")]) "X-API-Key" []
      (by decide) rfl (by decide)
  · exact C3_auth_order.2.2.2.1 none "petstore_auth" [] (by decide) (by decide) (by decide)

/-- A v2 `in: body` parameter with the given schema. -/
def bodyP (nm : String) (sch : Json) : Json :=
  Json.obj [("name", Json.str nm), ("in", Json.str "body"), ("schema", sch)]

/-- C5 (amended): for a v2 `in: body` parameter the sampler call is wrapped
in try/catch — when the sampler raises, `getPayload` returns `null` for the
whole operation instead of propagating the exception. -/
theorem C5_body_catch (sampler : Sampler) (p m nm : String) (sch : Json)
    (hm : m ≠ "parameters") (hnns : pNotNull sch = true)
    (hrefs : sch.get "$ref" = none)
    (herr : sampler sch (mkDocT [] p m none [("parameters", Json.arr [bodyP nm sch])]) =
      .error ()) :
    getPayload sampler (mkDocT [] p m none [("parameters", Json.arr [bodyP nm sch])]) p m =
      .ok (none, mkDocT [] p m none [("parameters", Json.arr [bodyP nm sch])]) := by
  have hsOk : schemaOkB (bodyP nm sch) = true := by
    unfold schemaOkB
    cases sch with
    | null => simp [pNotNull] at hnns
    | bool b =>
      show ((Json.bool b).get "$ref").isNone = true
      rw [hrefs]
      rfl
    | num n =>
      show ((Json.num n).get "$ref").isNone = true
      rw [hrefs]
      rfl
    | str s =>
      show ((Json.str s).get "$ref").isNone = true
      rw [hrefs]
      rfl
    | arr xs =>
      show ((Json.arr xs).get "$ref").isNone = true
      rw [hrefs]
      rfl
    | obj fl =>
      show ((Json.obj fl).get "$ref").isNone = true
      rw [hrefs]
      rfl
  have hread : (mkDocT [] p m none [("parameters", Json.arr [bodyP nm sch])]).getPath
      ([JKey.fld "paths", JKey.fld p, JKey.fld m, JKey.fld "parameters"] ++ [JKey.idx 0]) =
        some (bodyP nm sch) := by
    rw [Json.getPath_append, mkDocT_oparams_loc [] p m none _ hm]
    simp only [jlookup_cons, beq_self_eq_true, if_true, Option.some_bind,
      Json.getPath_cons, Json.getK_arr_idx, Json.getPath_nil]
    rfl
  have hsite : paramSite (mkDocT [] p m none [("parameters", Json.arr [bodyP nm sch])])
      ([JKey.fld "paths", JKey.fld p, JKey.fld m, JKey.fld "parameters"] ++ [JKey.idx 0]) =
        .ok (.at_ ([JKey.fld "paths", JKey.fld p, JKey.fld m, JKey.fld "parameters"] ++
          [JKey.idx 0])) :=
    paramSite_noref hread rfl rfl
  have hres : resolveSchemaAt (mkDocT [] p m none [("parameters", Json.arr [bodyP nm sch])])
      (.at_ ([JKey.fld "paths", JKey.fld p, JKey.fld m, JKey.fld "parameters"] ++
        [JKey.idx 0])) =
      .ok (mkDocT [] p m none [("parameters", Json.arr [bodyP nm sch])]) :=
    resolveSchemaAt_nice hread rfl hsOk
  have hjs : jsInLower (some (bodyP nm sch)) = .ok (some "body") := by
    rw [jsInLower_str (x := bodyP nm sch) (s := "body") rfl rfl]
    rfl
  have hstep : payloadStep sampler
      [JKey.fld "paths", JKey.fld p, JKey.fld m, JKey.fld "parameters"]
      (mkDocT [] p m none [("parameters", Json.arr [bodyP nm sch])], none) (.idx 0) =
      .ok (.abort (mkDocT [] p m none [("parameters", Json.arr [bodyP nm sch])])) := by
    unfold payloadStep
    simp only [hsite, eu_bind_ok, hres, siteVal, hread, hjs]
    have hjget : jsGet (some (bodyP nm sch)) "schema" = Except.ok (some sch) := rfl
    simp only [if_true, hjget, eu_bind_ok, herr]
    rfl
  simp only [getPayload]
  rw [jsGet_of_notnull (pNotNull_mkDocT [] p m none _) "paths", mkDocT_paths]
  simp only [eu_bind_ok, jsGet_obj, jlookup_cons, beq_self_eq_true, if_true]
  rw [jsGet_of_notnull (pNotNull_mkPathItem none m _) "parameters",
    mkPathItem_params none m _ hm]
  simp only [eu_bind_ok, eu_pure]
  rw [jsGet_of_notnull (pNotNull_mkDocT [] p m none _) "paths", mkDocT_paths]
  simp only [eu_bind_ok, jsGet_obj, jlookup_cons, beq_self_eq_true, if_true]
  rw [jsGet_of_notnull (pNotNull_mkPathItem none m _) m, mkPathItem_op none m _ hm]
  simp only [eu_bind_ok, jsGet_obj, jlookup_cons, beq_self_eq_true, if_true]
  have hkeys : (Json.arr [bodyP nm sch]).forInKeys = [JKey.idx 0] := rfl
  rw [hkeys]
  unfold payloadLoop
  rw [hstep]
  simp only [eu_bind_ok]
  rfl

/-- A sampler that always raises. -/
def failSampler : Sampler := fun _ _ => .error ()

/-- A v3 document whose operation carries a `requestBody` with an
`application/json` content schema. -/
def docC5 : Json :=
  mkDocT [] "/pets" "post" none
    [("requestBody", Json.obj [("content", Json.obj [("application/json",
        Json.obj [("schema", Json.obj [("type", Json.str "object")])])])])]

/-- C5 counterexample: the v3 `requestBody.content` sampler call is not
wrapped in try/catch, so a raising sampler propagates out of the Payload
Builder instead of yielding a `null` payload. -/
theorem C5_counterexample :
    getPayload failSampler docC5 "/pets" "post" = .error () := by rfl

/-- C5 witness: a raising sampler on a v2 `in: body` parameter is caught
and the whole operation's payload is `null` (and the document unchanged). -/
theorem C5_body_catch_witness :
    getPayload failSampler (mkDocT [] "/pets" "post" none
        [("parameters", Json.arr [bodyP "body" (Json.obj [("type", Json.str "object")])])])
      "/pets" "post" =
    .ok (none, mkDocT [] "/pets" "post" none
        [("parameters", Json.arr [bodyP "body" (Json.obj [("type", Json.str "object")])])]) :=
  C5_body_catch failSampler "/pets" "post" "body" (Json.obj [("type", Json.str "object")])
    (by decide) rfl rfl rfl

/-- C6 (amended): one operation-level and one document-level security-loop
iteration classify a requirement identically — provided the resolved
scheme's `type` is `apikey`, or its `scheme` field is a string, or its
`type` is `oauth2` with `scheme` absent or null.  (Outside these cases the
document-level loop reads `.scheme.toLowerCase()` unguarded and throws
where the operation-level loop does not.) -/
theorem C6_classification (doc secv : Json) (st : AuthSt) (k : JKey)
    (s : String) (sdO : Option Json) (tv : Option Json) (ty0 : String)
    (h1 : objKeysFirst ((secv.getK k).getD Json.null) = .ok s)
    (h2 : secDefinitionOf doc s = .ok sdO)
    (h3 : jsGet sdO "type" = .ok tv)
    (h4 : expectStr tv = .ok ty0)
    (h5 : strLower ty0 = "apikey" ∨
          (∃ s2, (sdO.getD Json.null).get "scheme" = some (.str s2)) ∨
          (strLower ty0 = "oauth2" ∧
            ((sdO.getD Json.null).get "scheme" = none ∨
             (sdO.getD Json.null).get "scheme" = some Json.null))) :
    secStepOp doc secv st k = secStepDoc doc secv st k := by
  unfold secStepOp secStepDoc
  dsimp only
  rw [h1]
  simp only [eu_bind_ok, h2, h3, h4]
  rcases h5 with hak | ⟨s2, hs2⟩ | ⟨hoa, hsch⟩
  · rw [hak]
    simp
  · rw [hs2]
    by_cases hak : strLower ty0 = "apikey"
    · simp [hak]
    · by_cases hoa : strLower ty0 = "oauth2"
      · simp only [hoa]
        simp only [ne_eq, expectStr_str, eu_bind_ok]
        simp [applyAuthSwitch]
      · simp [hak, hoa]
  · rw [hoa]
    rcases hsch with hn | hn <;> simp [hn]

/-- Security definitions holding one `basic`-typed scheme with no `scheme`
field. -/
def secDefsC6 : Json := Json.obj [("basicAuth", Json.obj [("type", Json.str "basic")])]

/-- `security: [\x7bbasicAuth: []\x7d]` declared at operation level. -/
def docC6op : Json :=
  mkDocT [("securityDefinitions", secDefsC6)] "/pets" "get" none
    [("security", Json.arr [Json.obj [("basicAuth", Json.arr [])]])]

/-- The same requirement declared at document level instead. -/
def docC6doc : Json :=
  mkDocT [("securityDefinitions", secDefsC6),
      ("security", Json.arr [Json.obj [("basicAuth", Json.arr [])]])]
    "/pets" "get" none []

/-- C6 counterexample: the same `type: basic` requirement (scheme object
without a `scheme` field) classifies as Basic auth at operation level but
makes the document-level loop throw, because that loop reads
`secDefinition.scheme.toLowerCase()` unguarded whenever the type is
neither `apikey` nor `oauth2`. -/
theorem C6_counterexample :
    getHeadersArray docC6op "/pets" "get" =
      .ok [⟨"Authorization", Json.str ("Basic " ++ "REPLACE_BASIC_AUTH")⟩] ∧
    getHeadersArray docC6doc "/pets" "get" = .error () := ⟨rfl, rfl⟩

/-- C6 witness: on an `apiKey`/`in: header` scheme the two loops perform
the same classification step. -/
theorem C6_classification_witness :
    secStepOp (Json.obj [("securityDefinitions", Json.obj [("keyAuth",
        Json.obj [("type", Json.str "apiKey"), ("in", Json.str "header"),
                  ("name", Json.str "X-API-Key")])])])
      (Json.arr [Json.obj [("keyAuth", Json.arr [])]]) ⟨none, none, none⟩ (.idx 0) =
    secStepDoc (Json.obj [("securityDefinitions", Json.obj [("keyAuth",
        Json.obj [("type", Json.str "apiKey"), ("in", Json.str "header"),
                  ("name", Json.str "X-API-Key")])])])
      (Json.arr [Json.obj [("keyAuth", Json.arr [])]]) ⟨none, none, none⟩ (.idx 0) :=
  C6_classification _ _ ⟨none, none, none⟩ (.idx 0) "keyAuth"
    (some (Json.obj [("type", Json.str "apiKey"), ("in", Json.str "header"),
                     ("name", Json.str "X-API-Key")]))
    (some (Json.str "apiKey")) "apiKey" rfl rfl rfl rfl (Or.inl rfl)

/-- C7 (amended): `resolveRef` yields a fresh empty object exactly for
reference strings with at most one `/`-segment (such as `#`); for longer
unresolvable references it instead yields `undefined` (one missing
segment) or throws (reading a property of `undefined`). -/
theorem C7_resolveRef_empty (doc : Json) (ref : String)
    (h : (jsSplit ref "/").length ≤ 1) :
    resolveRef doc ref = .ok (some (Json.obj [])) := by
  unfold resolveRef
  simp [h]

/-- C7 counterexample: on an empty document the unresolvable `#/a/b`
throws a TypeError rather than silently yielding an empty object, and
`#/a` yields `undefined`, not an empty object. -/
theorem C7_counterexample :
    resolveRef (Json.obj []) "#/a/b" = .error () ∧
    resolveRef (Json.obj []) "#/a" = .ok none := ⟨rfl, rfl⟩

/-- C7 witness: the segment-less reference `#` yields an empty object. -/
theorem C7_resolveRef_empty_witness :
    resolveRef (Json.obj []) "#" = .ok (some (Json.obj [])) :=
  C7_resolveRef_empty (Json.obj []) "#" (by decide)

/-- Operation fields holding only an optional `description`. -/
def opFieldsC8 : Option Json → List (String × Json)
  | some d => [("description", d)]
  | none => []

/-- `description || 'No description available'`. -/
def descFallback : Option Json → Json
  | some d => if d.truthy then d else Json.str "No description available"
  | none => Json.str "No description available"

/-- The one-path/one-operation document with a `host` and an operation
carrying only an optional description. -/
def docC8 (p m : String) (dsc : Option Json) : Json :=
  mkDocT [("host", Json.str "api.example.com")] p m none (opFieldsC8 dsc)

/-- The descriptor produced for a parameterless operation. -/
def harC8 (m url : String) : Har :=
  { method := strUpper m, url := url, headers := [], queryString := [],
    httpVersion := "HTTP/1.1", cookies := [], headersSize := 0, bodySize := 0,
    postData := none }

theorem opFieldsC8_lookup (dsc : Option Json) (k : String)
    (hk : (k == "description") = false) : (opFieldsC8 dsc).lookup k = none := by
  cases dsc with
  | none => rfl
  | some d => simp [opFieldsC8, hk]

theorem c8_baseUrl (p m : String) (dsc : Option Json) :
    getBaseUrl (docC8 p m dsc) = .ok (some (Json.str "http://api.example.com")) := rfl

theorem c8_fullPath (p m : String) (dsc : Option Json) (hm : m ≠ "parameters") :
    getFullPath (docC8 p m dsc) p m = .ok p := by
  simp only [getFullPath, docC8]
  rw [jsGet_of_notnull (pNotNull_mkDocT [("host", Json.str "api.example.com")] p m none _)
    "paths", mkDocT_paths]
  simp only [eu_bind_ok, jsGet_obj, jlookup_cons, beq_self_eq_true, if_true]
  rw [jsGet_of_notnull (pNotNull_mkPathItem none m _) "parameters",
    mkPathItem_params none m _ hm]
  simp only [eu_bind_ok, truthyO_none, Bool.false_eq_true, if_false]
  rw [jsGet_of_notnull (pNotNull_mkPathItem none m _) m, mkPathItem_op none m _ hm]
  simp only [eu_bind_ok, jsGet_obj, opFieldsC8_lookup dsc "parameters" (by decide)]
  rfl

theorem c8_query (p m : String) (dsc : Option Json)
    (hm : m ≠ "parameters") :
    getQueryStrings (docC8 p m dsc) p m [] = .ok ([], docC8 p m dsc) := by
  simp only [getQueryStrings, docC8]
  rw [jsGet_of_notnull (pNotNull_mkDocT [("host", Json.str "api.example.com")] p m none _)
    "paths", mkDocT_paths]
  simp only [eu_bind_ok, jsGet_obj, jlookup_cons, beq_self_eq_true, if_true]
  rw [jsGet_of_notnull (pNotNull_mkPathItem none m _) "parameters",
    mkPathItem_params none m _ hm]
  simp only [eu_bind_ok, eu_pure]
  rw [jsGet_of_notnull (pNotNull_mkDocT [("host", Json.str "api.example.com")] p m none _)
    "paths", mkDocT_paths]
  simp only [eu_bind_ok, jsGet_obj, jlookup_cons, beq_self_eq_true, if_true]
  rw [jsGet_of_notnull (pNotNull_mkPathItem none m _) m, mkPathItem_op none m _ hm]
  simp only [eu_bind_ok, jsGet_obj, opFieldsC8_lookup dsc "parameters" (by decide)]

theorem c8_headers (p m : String) (dsc : Option Json) (hm : m ≠ "parameters") :
    getHeadersArray (docC8 p m dsc) p m = .ok [] := by
  simp only [getHeadersArray, docC8]
  rw [jsGet_of_notnull (pNotNull_mkDocT [("host", Json.str "api.example.com")] p m none _)
    "paths", mkDocT_paths]
  simp only [eu_bind_ok, jsGet_obj, jlookup_cons, beq_self_eq_true, if_true]
  rw [jsGet_of_notnull (pNotNull_mkPathItem none m _) m, mkPathItem_op none m _ hm]
  simp only [eu_bind_ok, jsGet_obj, opFieldsC8_lookup dsc "consumes" (by decide),
    opFieldsC8_lookup dsc "produces" (by decide),
    opFieldsC8_lookup dsc "requestBody" (by decide),
    opFieldsC8_lookup dsc "security" (by decide),
    opFieldsC8_lookup dsc "parameters" (by decide)]
  rw [show jsGet (some (mkDocT [("host", Json.str "api.example.com")] p m none
      (opFieldsC8 dsc))) "consumes" = .ok none from rfl]
  simp only [eu_bind_ok]
  rw [show jsGet (some (mkDocT [("host", Json.str "api.example.com")] p m none
      (opFieldsC8 dsc))) "produces" = .ok none from rfl]
  simp only [eu_bind_ok, truthyO_none, Bool.false_eq_true, if_false]
  rw [jsGet_of_notnull (pNotNull_mkPathItem none m _) "parameters",
    mkPathItem_params none m _ hm]
  rw [show jsGet (some (mkDocT [("host", Json.str "api.example.com")] p m none
      (opFieldsC8 dsc))) "security" = .ok none from rfl]
  simp only [eu_bind_ok, eu_pure, List.append_nil, List.nil_append, authTail_none]

theorem c8_payload (sampler : Sampler) (p m : String) (dsc : Option Json)
    (hm : m ≠ "parameters") :
    getPayload sampler (docC8 p m dsc) p m = .ok (none, docC8 p m dsc) := by
  simp only [getPayload, docC8]
  rw [jsGet_of_notnull (pNotNull_mkDocT [("host", Json.str "api.example.com")] p m none _)
    "paths", mkDocT_paths]
  simp only [eu_bind_ok, jsGet_obj, jlookup_cons, beq_self_eq_true, if_true]
  rw [jsGet_of_notnull (pNotNull_mkPathItem none m _) "parameters",
    mkPathItem_params none m _ hm]
  simp only [eu_bind_ok, eu_pure]
  rw [jsGet_of_notnull (pNotNull_mkDocT [("host", Json.str "api.example.com")] p m none _)
    "paths", mkDocT_paths]
  simp only [eu_bind_ok, jsGet_obj, jlookup_cons, beq_self_eq_true, if_true]
  rw [jsGet_of_notnull (pNotNull_mkPathItem none m _) m, mkPathItem_op none m _ hm]
  simp only [eu_bind_ok, jsGet_obj, opFieldsC8_lookup dsc "parameters" (by decide),
    opFieldsC8_lookup dsc "requestBody" (by decide), eu_pure]
  rw [jsGet_of_notnull (pNotNull_mkDocT [("host", Json.str "api.example.com")] p m none _)
    "paths", mkDocT_paths]
  simp only [eu_bind_ok, jsGet_obj, jlookup_cons, beq_self_eq_true, if_true]
  rw [jsGet_of_notnull (pNotNull_mkPathItem none m _) m, mkPathItem_op none m _ hm]
  simp only [eu_bind_ok, jsGet_obj, opFieldsC8_lookup dsc "requestBody" (by decide),
    truthyO_none, Bool.false_eq_true, if_false, eu_pure]
  rw [jsGet_of_notnull (pNotNull_mkDocT [("host", Json.str "api.example.com")] p m none _)
    "paths", mkDocT_paths]
  simp only [eu_bind_ok, jsGet_obj, jlookup_cons, beq_self_eq_true, if_true]
  rw [jsGet_of_notnull (pNotNull_mkPathItem none m _) m, mkPathItem_op none m _ hm]
  simp only [eu_bind_ok, jsGet_obj, opFieldsC8_lookup dsc "requestBody" (by decide),
    truthyO_none, Bool.false_eq_true, if_false, eu_pure]

theorem c8_createHar (sampler : Sampler) (p m : String) (dsc : Option Json)
    (hm : m ≠ "parameters") :
    createHar sampler (docC8 p m dsc) p m [] =
      .ok (harC8 m ("http://api.example.com" ++ p), docC8 p m dsc) := by
  unfold createHar
  rw [c8_baseUrl p m dsc]
  simp only [eu_bind_ok]
  rw [c8_fullPath p m dsc hm]
  simp only [eu_bind_ok]
  rw [c8_headers p m dsc hm]
  simp only [eu_bind_ok]
  rw [c8_query p m dsc hm]
  simp only [eu_bind_ok]
  rw [c8_payload sampler p m dsc hm]
  simp only [eu_bind_ok, eu_pure]
  rfl

theorem c8_body (sampler : Sampler) (p m : String) (dsc : Option Json)
    (hm : m ≠ "parameters") :
    openApiToHarListBody sampler (docC8 p m dsc) =
      .ok [⟨strUpper m, "http://api.example.com" ++ p, descFallback dsc,
            harC8 m ("http://api.example.com" ++ p)⟩] := by
  have hnn : pNotNull (docC8 p m dsc) = true :=
    pNotNull_mkDocT [("host", Json.str "api.example.com")] p m none (opFieldsC8 dsc)
  have hpaths : (docC8 p m dsc).get "paths" =
      some (Json.obj [(p, mkPathItem none m (opFieldsC8 dsc))]) :=
    mkDocT_paths [("host", Json.str "api.example.com")] p m none (opFieldsC8 dsc)
  have hdf : (if Json.truthyO dsc then dsc.getD Json.null
      else Json.str "No description available") = descFallback dsc := by
    cases dsc <;> rfl
  simp only [openApiToHarListBody]
  rw [c8_baseUrl p m dsc]
  simp only [eu_bind_ok, hpaths, Option.getD_some, Json.forInKeys_obj, List.map]
  unfold harListPathLoop
  rw [jsGet_of_notnull hnn "paths", hpaths]
  simp only [eu_bind_ok, Option.some_bind, Json.getK_fld, Json.get_obj, jlookup_cons,
    beq_self_eq_true, if_true, Option.getD_some, mkPathItem, List.nil_append,
    Json.forInKeys_obj, List.map]
  unfold harListMethodLoop
  dsimp only
  rw [c8_createHar sampler p m dsc hm]
  simp only [eu_bind_ok]
  rw [jsGet_of_notnull hnn "paths", hpaths]
  simp only [eu_bind_ok, jsGet_obj, jlookup_cons, beq_self_eq_true, if_true]
  rw [jsGet_of_notnull (pNotNull_mkPathItem none m _) m, mkPathItem_op none m _ hm]
  simp only [eu_bind_ok, jsGet_obj]
  have hdesc : (opFieldsC8 dsc).lookup "description" = dsc := by
    cases dsc with
    | none => rfl
    | some d => simp [opFieldsC8]
  rw [hdesc, hdf]
  unfold harListMethodLoop
  simp only [eu_bind_ok, eu_pure]
  unfold harListPathLoop
  simp only [eu_bind_ok, eu_pure, List.nil_append]
  rfl

/-- A two-path, three-operation document (no parameters anywhere). -/
def docC8two : Json :=
  Json.obj [("paths", Json.obj [
      ("/a", Json.obj [
        ("get", Json.obj [("description", Json.str "List")]),
        ("post", Json.obj [])]),
      ("/b", Json.obj [
        ("get", Json.obj [])])]),
    ("host", Json.str "api.example.com")]

/-- C8: document-wide synthesis yields one `\x7bmethod, url, description,
har\x7d` entry per path+method, with the method key uppercased and the
description falling back to `"No description available"`; it walks every
path and every method in order; and a throwing body (here: reading `.url`
of `servers[0]` on an empty `servers` array) makes `getAll` return
`undefined`. -/
theorem C8_getAll (sampler : Sampler) (p m : String) (dsc : Option Json)
    (hm : m ≠ "parameters") :
    openApiToHarList sampler (docC8 p m dsc) =
      some [⟨strUpper m, "http://api.example.com" ++ p, descFallback dsc,
             harC8 m ("http://api.example.com" ++ p)⟩] ∧
    openApiToHarList sampler docC8two =
      some [⟨"GET", "http://api.example.com/a", Json.str "List",
              harC8 "get" "http://api.example.com/a"⟩,
            ⟨"POST", "http://api.example.com/a", Json.str "No description available",
              harC8 "post" "http://api.example.com/a"⟩,
            ⟨"GET", "http://api.example.com/b", Json.str "No description available",
              harC8 "get" "http://api.example.com/b"⟩] ∧
    openApiToHarList sampler (Json.obj [("servers", Json.arr [])]) = none := by
  refine ⟨?_, rfl, rfl⟩
  unfold openApiToHarList
  rw [c8_body sampler p m dsc hm]

/-- C8 witness: a concrete one-operation document produces exactly one
entry with uppercased method and its own description. -/
theorem C8_getAll_witness :
    openApiToHarList failSampler (docC8 "/pets" "get" (some (Json.str "List pets"))) =
      some [⟨"GET", "http://api.example.com/pets", Json.str "List pets",
             harC8 "get" "http://api.example.com/pets"⟩] := by
  have h := (C8_getAll failSampler "/pets" "get" (some (Json.str "List pets")) (by decide)).1
  rw [h]
  rfl

/-- One payload-loop iteration on a nice parameter either aborts with the
document unchanged (sampler failure on a body parameter) or goes on with
the document unchanged. -/
theorem payloadStep_pres {sampler : Sampler} {doc : Json} {loc : List JKey}
    {pl : Option Json} {i : Nat} {x : Json}
    (hx : doc.getPath (loc ++ [JKey.idx i]) = some x) (hn : paramNice x = true) :
    payloadStep sampler loc (doc, pl) (.idx i) = .ok (.abort doc) ∨
    ∃ pl', payloadStep sampler loc (doc, pl) (.idx i) = .ok (.go (doc, pl')) := by
  unfold paramNice at hn
  simp only [Bool.and_eq_true] at hn
  obtain ⟨⟨⟨⟨hnn, href⟩, hname⟩, hsch⟩, hin⟩ := hn
  have hsite := paramSite_noref hx hnn href
  have hres := resolveSchemaAt_nice hx hnn hsch
  unfold payloadStep
  simp only [hsite, eu_bind_ok, hres, siteVal, hx]
  cases hins : x.get "in" with
  | none =>
    rw [jsInLower_absent hnn hins]
    simp only [eu_bind_ok]
    right
    exact ⟨pl, by simp⟩
  | some v =>
    unfold inOkB at hin
    rw [hins] at hin
    cases v with
    | null => simp at hin
    | bool b => simp at hin
    | num n => simp at hin
    | arr xs => simp at hin
    | obj fl => simp at hin
    | str s =>
      rw [jsInLower_str hnn hins]
      simp only [eu_bind_ok]
      by_cases hb : strLower s = "body"
      · rw [jsGet_of_notnull hnn "schema"]
        simp only [hb, if_pos, eu_bind_ok]
        cases hxs : x.get "schema" with
        | none =>
          right
          refine ⟨pl, ?_⟩
          simp
        | some sch =>
          cases hsam : sampler sch doc with
          | error e =>
            left
            simp [hsam]
          | ok sample =>
            right
            refine ⟨some (Json.obj [("mimeType", Json.str "application/json"),
              ("text", Json.str (Json.stringify sample))]), ?_⟩
            simp [hsam]
      · by_cases hf : strLower s = "formdata"
        · have hty : ∃ t, x.get "type" = some (.str t) := by
            simp only [Bool.and_eq_true] at hin
            have h2 := hin.2
            rw [if_pos hf] at h2
            cases htt : x.get "type" with
            | none => rw [htt] at h2; cases h2
            | some tv =>
              rw [htt] at h2
              cases tv with
              | str t => exact ⟨t, rfl⟩
              | null => cases h2
              | bool b => cases h2
              | num n => cases h2
              | arr xs => cases h2
              | obj fl => cases h2
          obtain ⟨t, hty⟩ := hty
          right
          rw [if_neg (by simp [hb])]
          simp only [eu_bind_ok, hf, if_pos]
          rw [jsGet_of_notnull hnn "type", hty]
          simp only [eu_bind_ok, expectStr_str]
          rw [jsGet_of_notnull hnn "name"]
          simp only [eu_bind_ok, eu_pure]
          exact ⟨_, rfl⟩
        · right
          rw [if_neg (by simp [hb])]
          simp only [eu_bind_ok, eu_pure]
          rw [if_neg (by simp [hf])]
          exact ⟨pl, rfl⟩

/-- The payload parameter loop over a nice list leaves the document
unchanged (aborting or not). -/
theorem payloadLoop_pres {sampler : Sampler} {doc : Json} {loc : List JKey} {ps : List Json}
    (hget : ∀ i x, ps.get? i = some x → doc.getPath (loc ++ [JKey.idx i]) = some x)
    (hn : ∀ x ∈ ps, paramNice x = true) :
    ∀ (l : List Json) (i : Nat), ps.drop i = l → ∀ pl,
      payloadLoop sampler loc (doc, pl) ((List.range' i l.length).map JKey.idx) =
        .ok (.abort doc) ∨
      ∃ pl', payloadLoop sampler loc (doc, pl) ((List.range' i l.length).map JKey.idx) =
        .ok (.go (doc, pl')) := by
  intro l
  induction l with
  | nil =>
    intro i _ pl
    right
    exact ⟨pl, rfl⟩
  | cons x rest ih =>
    intro i hdrop pl
    have hx : ps.get? i = some x := get?_of_drop_cons hdrop
    have hd : ps.drop (i + 1) = rest := drop_succ_of_drop_cons hdrop
    rw [show List.range' i (x :: rest).length = i :: List.range' (i + 1) rest.length from rfl,
      List.map_cons]
    rcases @payloadStep_pres sampler doc loc pl i x (hget i x hx)
        (hn x (List.get?_mem hx)) with hab | ⟨pl', hgo⟩
    · left
      unfold payloadLoop
      rw [hab]
      rfl
    · have := ih (i + 1) hd pl'
      rcases this with hab2 | ⟨pl2, hgo2⟩
      · left
        unfold payloadLoop
        rw [hgo]
        simpa using hab2
      · right
        refine ⟨pl2, ?_⟩
        unfold payloadLoop
        rw [hgo]
        simpa using hgo2

/-- `getPayload` on the canonical document with nice parameter lists
returns the document unchanged. -/
theorem getPayload_mkDocT_pres (sampler : Sampler) (p m : String)
    (pps : Option (List Json)) (ops : List Json)
    (hm : m ≠ "parameters")
    (hpn : ∀ x ∈ pps.getD [], paramNice x = true)
    (hon : ∀ x ∈ ops, paramNice x = true) :
    ∃ pl, getPayload sampler (mkDocT [] p m pps [("parameters", Json.arr ops)]) p m =
      .ok (pl, mkDocT [] p m pps [("parameters", Json.arr ops)]) := by
  have hb1 : ("requestBody" == "parameters") = false := by decide
  have hgetO : ∀ i x, ops.get? i = some x →
      (mkDocT [] p m pps [("parameters", Json.arr ops)]).getPath
        ([JKey.fld "paths", JKey.fld p, JKey.fld m, JKey.fld "parameters"] ++
          [JKey.idx i]) = some x := by
    intro i x hx
    rw [Json.getPath_append, mkDocT_oparams_loc [] p m pps _ hm]
    simp only [jlookup_cons, beq_self_eq_true, if_true, Option.some_bind,
      Json.getPath_cons, Json.getK_arr_idx, hx, Json.getPath_nil]
  have hloopO := @payloadLoop_pres sampler _ _ ops hgetO hon ops 0 rfl
  cases pps with
  | none =>
    simp only [getPayload]
    rw [jsGet_of_notnull (pNotNull_mkDocT [] p m none _) "paths", mkDocT_paths]
    simp only [eu_bind_ok, jsGet_obj, jlookup_cons, beq_self_eq_true, if_true]
    rw [jsGet_of_notnull (pNotNull_mkPathItem none m _) "parameters",
      mkPathItem_params none m _ hm]
    simp only [eu_bind_ok, eu_pure]
    rw [jsGet_of_notnull (pNotNull_mkDocT [] p m none _) "paths", mkDocT_paths]
    simp only [eu_bind_ok, jsGet_obj, jlookup_cons, beq_self_eq_true, if_true]
    rw [jsGet_of_notnull (pNotNull_mkPathItem none m _) m, mkPathItem_op none m _ hm]
    simp only [eu_bind_ok, jsGet_obj, jlookup_cons, beq_self_eq_true, if_true]
    rw [Json.forInKeys_arr, List.range_eq_range']
    rcases hloopO none with hab | ⟨pl1, hgo⟩
    · rw [hab]
      exact ⟨none, rfl⟩
    · rw [hgo]
      simp only [eu_bind_ok]
      rw [jsGet_of_notnull (pNotNull_mkDocT [] p m none _) "paths", mkDocT_paths]
      simp only [eu_bind_ok, jsGet_obj, jlookup_cons, beq_self_eq_true, if_true]
      rw [jsGet_of_notnull (pNotNull_mkPathItem none m _) m, mkPathItem_op none m _ hm]
      simp only [eu_bind_ok, jsGet_obj, jlookup_cons, hb1, Bool.false_eq_true, if_false,
        List.lookup_nil, truthyO_none, eu_pure]
      rw [jsGet_of_notnull (pNotNull_mkDocT [] p m none _) "paths", mkDocT_paths]
      simp only [eu_bind_ok, jsGet_obj, jlookup_cons, beq_self_eq_true, if_true]
      rw [jsGet_of_notnull (pNotNull_mkPathItem none m _) m, mkPathItem_op none m _ hm]
      simp only [eu_bind_ok, jsGet_obj, jlookup_cons, hb1, Bool.false_eq_true, if_false,
        List.lookup_nil, truthyO_none, eu_pure]
      exact ⟨pl1, rfl⟩
  | some l =>
    have hgetP : ∀ i x, l.get? i = some x →
        (mkDocT [] p m (some l) [("parameters", Json.arr ops)]).getPath
          ([JKey.fld "paths", JKey.fld p, JKey.fld "parameters"] ++ [JKey.idx i]) =
            some x := by
      intro i x hx
      rw [Json.getPath_append, mkDocT_pparams_loc [] p m (some l) _ hm]
      simp only [Option.some_bind, Json.getPath_cons, Json.getK_arr_idx, hx,
        Json.getPath_nil]
    have hloopP := @payloadLoop_pres sampler _ _ l hgetP (by simpa using hpn) l 0 rfl
    simp only [getPayload]
    rw [jsGet_of_notnull (pNotNull_mkDocT [] p m (some l) _) "paths", mkDocT_paths]
    simp only [eu_bind_ok, jsGet_obj, jlookup_cons, beq_self_eq_true, if_true]
    rw [jsGet_of_notnull (pNotNull_mkPathItem (some l) m _) "parameters",
      mkPathItem_params (some l) m _ hm]
    simp only [eu_bind_ok]
    rw [Json.forInKeys_arr, List.range_eq_range']
    rcases hloopP none with habP | ⟨pl0, hgoP⟩
    · rw [habP]
      exact ⟨none, rfl⟩
    · rw [hgoP]
      simp only [eu_bind_ok]
      rw [jsGet_of_notnull (pNotNull_mkDocT [] p m (some l) _) "paths", mkDocT_paths]
      simp only [eu_bind_ok, jsGet_obj, jlookup_cons, beq_self_eq_true, if_true]
      rw [jsGet_of_notnull (pNotNull_mkPathItem (some l) m _) m,
        mkPathItem_op (some l) m _ hm]
      simp only [eu_bind_ok, jsGet_obj, jlookup_cons, beq_self_eq_true, if_true]
      rw [Json.forInKeys_arr, List.range_eq_range']
      rcases hloopO pl0 with hab | ⟨pl1, hgo⟩
      · rw [hab]
        exact ⟨none, rfl⟩
      · rw [hgo]
        simp only [eu_bind_ok]
        rw [jsGet_of_notnull (pNotNull_mkDocT [] p m (some l) _) "paths", mkDocT_paths]
        simp only [eu_bind_ok, jsGet_obj, jlookup_cons, beq_self_eq_true, if_true]
        rw [jsGet_of_notnull (pNotNull_mkPathItem (some l) m _) m,
          mkPathItem_op (some l) m _ hm]
        simp only [eu_bind_ok, jsGet_obj, jlookup_cons, hb1, Bool.false_eq_true, if_false,
          List.lookup_nil, truthyO_none, eu_pure]
        rw [jsGet_of_notnull (pNotNull_mkDocT [] p m (some l) _) "paths", mkDocT_paths]
        simp only [eu_bind_ok, jsGet_obj, jlookup_cons, beq_self_eq_true, if_true]
        rw [jsGet_of_notnull (pNotNull_mkPathItem (some l) m _) m,
          mkPathItem_op (some l) m _ hm]
        simp only [eu_bind_ok, jsGet_obj, jlookup_cons, hb1, Bool.false_eq_true, if_false,
          List.lookup_nil, truthyO_none, eu_pure]
        exact ⟨pl1, rfl⟩

/-- C9 (amended): on the canonical single-operation document whose
parameter lists are `$ref`-free and well-formed, single-operation synthesis
does not mutate the document, so a second call with the same arguments
returns the same descriptor (the sampler is a function, hence
deterministic).  With `$ref`s present this fails — see the
counterexample. -/
theorem C9_idempotent (sampler : Sampler) (p m : String) (pps : Option (List Json))
    (ops : List Json) (values : List (String × Json)) (har : Har) (d : Json)
    (hm : m ≠ "parameters")
    (hpn : ∀ x ∈ pps.getD [], paramNice x = true)
    (hon : ∀ x ∈ ops, paramNice x = true)
    (h : createHar sampler (mkDocT [] p m pps [("parameters", Json.arr ops)]) p m values =
      .ok (har, d)) :
    d = mkDocT [] p m pps [("parameters", Json.arr ops)] ∧
    createHar sampler d p m values = .ok (har, d) := by
  have hq := getQueryStrings_mkDocT [] p m pps ops values hm hpn hon
  obtain ⟨pl, hp⟩ := getPayload_mkDocT_pres sampler p m pps ops hm hpn hon
  unfold createHar at h
  rcases hb : getBaseUrl (mkDocT [] p m pps [("parameters", Json.arr ops)]) with e | b <;>
    rw [hb] at h
  · simp at h
  rcases hf : getFullPath (mkDocT [] p m pps [("parameters", Json.arr ops)]) p m
      with e | fp <;> rw [hf] at h
  · simp at h
  rcases hh : getHeadersArray (mkDocT [] p m pps [("parameters", Json.arr ops)]) p m
      with e | hs <;> rw [hh] at h
  · simp at h
  rw [hq] at h
  simp only [eu_bind_ok] at h
  rw [hp] at h
  simp only [eu_bind_ok, eu_pure, Except.ok.injEq, Prod.mk.injEq] at h
  obtain ⟨hhar, hd⟩ := h
  subst hd
  refine ⟨rfl, ?_⟩
  unfold createHar
  rw [hb]
  simp only [eu_bind_ok]
  rw [hf]
  simp only [eu_bind_ok]
  rw [hh]
  simp only [eu_bind_ok]
  rw [hq]
  simp only [eu_bind_ok]
  rw [hp]
  simp only [eu_bind_ok, eu_pure]
  rw [hhar]

/-- A document whose query parameter's schema is a `$ref` to a definition
that itself contains a `$ref` (a chained reference). -/
def docC9 : Json :=
  Json.obj [
    ("paths", Json.obj [("/q", Json.obj [("get", Json.obj [("parameters", Json.arr [
      Json.obj [("name", Json.str "x"), ("in", Json.str "query"),
                ("schema", Json.obj [("$ref", Json.str "#/definitions/A")])]])])])]),
    ("definitions", Json.obj [
      ("A", Json.obj [("$ref", Json.str "#/definitions/B")]),
      ("B", Json.obj [("example", Json.str "hello")])])]

/-- C9 counterexample: with a chained `$ref` the first call resolves only
one level (and defaults `type` to `object`), emitting the placeholder
`SOME_OBJECT_VALUE`; its in-place mutation lets the second call resolve
the next level and emit the schema example `hello` — the two descriptors
differ. -/
theorem C9_counterexample :
    ∃ h1 d1 h2 d2,
      createHar failSampler docC9 "/q" "get" [] = .ok (h1, d1) ∧
      createHar failSampler d1 "/q" "get" [] = .ok (h2, d2) ∧
      h1.queryString = [⟨"x", "SOME_OBJECT_VALUE"⟩] ∧
      h2.queryString = [⟨"x", "hello"⟩] ∧
      h1.queryString ≠ h2.queryString := by
  refine ⟨_, _, _, _, rfl, rfl, rfl, rfl, by decide⟩

/-- C9 witness: on a `$ref`-free document a second identical call returns
the same descriptor and the same document. -/
theorem C9_idempotent_witness :
    createHar failSampler (mkDocT [] "/pets" "get" none [("parameters", Json.arr [])])
        "/pets" "get" [] =
      .ok (harC8 "get" "http://undefined/pets",
           mkDocT [] "/pets" "get" none [("parameters", Json.arr [])]) :=
  (C9_idempotent failSampler "/pets" "get" none [] [] (harC8 "get" "http://undefined/pets")
      (mkDocT [] "/pets" "get" none [("parameters", Json.arr [])]) (by decide)
      (by intro x hx; simp at hx) (by intro x hx; simp at hx) rfl).2
